import Mathlib

/-!
Verification of the crabv6 kernel specification against its source.

This file is a shallow embedding of the kernel-side data structures and
operations of the crabv6 repository (a small Unix-like RISC-V kernel):
the pipe table (src/fd.rs), the TinyFs filesystem (src/fs.rs), the process
table and scheduler (src/proc.rs, src/scheduler.rs), the syscall layer
(src/syscall.rs) and the user-window loader (src/process.rs).

Modelling conventions:
  - Machine integers (usize, u32, u64) are natural numbers; the one place
    the source performs a narrowing cast (the `as u32` casts in fs.rs) is
    modelled with an explicit `% 2^32`.  Rust saturating subtraction on
    usize coincides with Nat subtraction.  The `usize::MAX` sentinel used
    for "no current process" (INVALID_PID) is modelled as `Option.none`.
  - Fallible Rust functions returning `Result` are modelled with `Except`.
  - The byte buffers behind raw pointers are modelled as `List Nat`; an
    out-parameter buffer filled by a read is modelled by returning the
    list of bytes written to it.
  - Global mutable state (`PROCESS_TABLE`, `PIPE_TABLE`, `FS_INSTANCE`,
    the UART, the CSRs sepc/sscratch and the user window) is passed and
    returned explicitly.  Functions that wake blocked processes return
    the list of woken PIDs where the layering would otherwise be circular.
-/

namespace Crabv6

/-! ## Error types (src/fd.rs, src/fs.rs, src/virtio.rs) -/

inductive VirtioError where
  | DeviceNotFound
  | UnsupportedDevice
  | LegacyOnly (version : Nat)
  | QueueUnavailable
  | DeviceRejectedFeatures
  | DeviceFailure
deriving DecidableEq

inductive FsError where
  | NotInitialized
  | NameTooLong
  | DirectoryFull
  | NotFound
  | NoSpace
  | InvalidEncoding
  | DeviceInitFailed (err : VirtioError)
  | InvalidPath
  | NotADirectory
  | AlreadyExists
  | DirectoryNotEmpty
  | IsDirectory
  | IsFile
deriving DecidableEq

inductive FdError where
  | BadFd
  | TooManyOpen
  | NotFound
  | NotImplemented
  | WouldBlock
  | BrokenPipe
  | Fs (err : FsError)
deriving DecidableEq

/-! ## Pipes (src/fd.rs lines 352-601)

A pipe is a 4 KiB ring buffer with read/write positions, open flags,
refcounts for each end and two wait queues of PIDs. -/

def PIPE_BUF_SIZE : Nat := 4096

def MAX_PIPES : Nat := 8

structure Pipe where
  buffer : List Nat
  read_pos : Nat
  write_pos : Nat
  read_end_open : Bool
  write_end_open : Bool
  read_refcount : Nat
  write_refcount : Nat
  waiting_readers : List Nat
  waiting_writers : List Nat
deriving DecidableEq

/-- Pipe::new -/
def Pipe.new : Pipe :=
  { buffer := List.replicate PIPE_BUF_SIZE 0
    read_pos := 0
    write_pos := 0
    read_end_open := true
    write_end_open := true
    read_refcount := 1
    write_refcount := 1
    waiting_readers := []
    waiting_writers := [] }

/-- Pipe::available: number of bytes available to read. -/
def Pipe.available (p : Pipe) : Nat :=
  if p.write_pos ≥ p.read_pos then p.write_pos - p.read_pos
  else PIPE_BUF_SIZE - p.read_pos + p.write_pos

/-- Pipe::space_available: free space, one slot is kept as a sentinel. -/
def Pipe.space_available (p : Pipe) : Nat :=
  PIPE_BUF_SIZE - p.available - 1

/-- The while loop inside Pipe::read: pop `k` bytes from the ring,
returning the bytes read (the contents written into the destination
buffer) together with the updated pipe. -/
def Pipe.readLoop : Pipe → Nat → List Nat × Pipe
  | p, 0 => ([], p)
  | p, Nat.succ k =>
    let b := p.buffer.getD p.read_pos 0
    let p1 := { p with read_pos := (p.read_pos + 1) % PIPE_BUF_SIZE }
    let r := Pipe.readLoop p1 k
    (b :: r.1, r.2)

/-- Pipe::read.  The destination buffer is represented by its length;
the bytes stored into it are returned as a list. -/
def Pipe.read (p : Pipe) (buf_len : Nat) : Except FdError (List Nat × Pipe) :=
  let available := p.available
  if available = 0 then
    if p.write_end_open then Except.error FdError.WouldBlock
    else Except.ok ([], p)
  else
    Except.ok (Pipe.readLoop p (min buf_len available))

/-- The while loop inside Pipe::write: push the given bytes into the ring. -/
def Pipe.writeLoop : Pipe → List Nat → Pipe
  | p, [] => p
  | p, b :: rest =>
    Pipe.writeLoop
      { p with buffer := p.buffer.set p.write_pos b
               write_pos := (p.write_pos + 1) % PIPE_BUF_SIZE } rest

/-- Pipe::write. -/
def Pipe.write (p : Pipe) (buf : List Nat) : Except FdError (Nat × Pipe) :=
  if p.read_end_open = false then Except.error FdError.BrokenPipe
  else
    let space := p.space_available
    if space = 0 then Except.error FdError.WouldBlock
    else
      let to_write := min buf.length space
      Except.ok (to_write, Pipe.writeLoop p (buf.take to_write))

/-- Pipe::mark_reader_waiting. -/
def Pipe.mark_reader_waiting (p : Pipe) (pid : Nat) : Pipe :=
  if p.waiting_readers.contains pid then p
  else { p with waiting_readers := p.waiting_readers ++ [pid] }

/-- Pipe::mark_writer_waiting. -/
def Pipe.mark_writer_waiting (p : Pipe) (pid : Nat) : Pipe :=
  if p.waiting_writers.contains pid then p
  else { p with waiting_writers := p.waiting_writers ++ [pid] }

/-- Pipe::wake_readers: empty the reader wait queue, returning the PIDs
that Scheduler::unblock is called on. -/
def Pipe.wake_readers (p : Pipe) : List Nat × Pipe :=
  (p.waiting_readers, { p with waiting_readers := [] })

/-- Pipe::wake_writers. -/
def Pipe.wake_writers (p : Pipe) : List Nat × Pipe :=
  (p.waiting_writers, { p with waiting_writers := [] })

/-! ## The pipe table (src/fd.rs lines 358-478) -/

structure PipeTable where
  pipes : List (Option Pipe)
deriving DecidableEq

def PipeTable.new : PipeTable := ⟨List.replicate MAX_PIPES none⟩

def PipeTable.getPipe (t : PipeTable) (pipe_id : Nat) : Option Pipe :=
  t.pipes.getD pipe_id none

/-- PipeTable::create_pipe. -/
def PipeTable.create_pipe (t : PipeTable) : Except FdError (Nat × PipeTable) :=
  match t.pipes.findIdx? (fun s => s.isNone) with
  | some i => Except.ok (i, ⟨t.pipes.set i (some Pipe.new)⟩)
  | none => Except.error FdError.TooManyOpen

/-- PipeTable::incref.  (`saturating_add(1)` on a Nat refcount is `+ 1`.) -/
def PipeTable.incref (t : PipeTable) (pipe_id : Nat) (is_read_end : Bool) :
    Except FdError PipeTable :=
  if pipe_id ≥ MAX_PIPES then Except.error FdError.BadFd
  else
    match t.getPipe pipe_id with
    | none => Except.error FdError.BadFd
    | some p =>
      let p1 :=
        if is_read_end then
          { p with read_refcount := p.read_refcount + 1, read_end_open := true }
        else
          { p with write_refcount := p.write_refcount + 1, write_end_open := true }
      Except.ok ⟨t.pipes.set pipe_id (some p1)⟩

/-- PipeTable::read: read and, if at least one byte was transferred, wake
the waiting writers.  Returns (bytes read, table, woken PIDs). -/
def PipeTable.read (t : PipeTable) (pipe_id : Nat) (buf_len : Nat) :
    Except FdError (List Nat × PipeTable × List Nat) :=
  if pipe_id ≥ MAX_PIPES then Except.error FdError.BadFd
  else
    match t.getPipe pipe_id with
    | none => Except.error FdError.BadFd
    | some p =>
      match p.read buf_len with
      | Except.error e => Except.error e
      | Except.ok (bytes, p1) =>
        let w := if bytes.length > 0 then p1.wake_writers else ([], p1)
        Except.ok (bytes, ⟨t.pipes.set pipe_id (some w.2)⟩, w.1)

/-- PipeTable::write. -/
def PipeTable.write (t : PipeTable) (pipe_id : Nat) (buf : List Nat) :
    Except FdError (Nat × PipeTable × List Nat) :=
  if pipe_id ≥ MAX_PIPES then Except.error FdError.BadFd
  else
    match t.getPipe pipe_id with
    | none => Except.error FdError.BadFd
    | some p =>
      match p.write buf with
      | Except.error e => Except.error e
      | Except.ok (written, p1) =>
        let w := if written > 0 then p1.wake_readers else ([], p1)
        Except.ok (written, ⟨t.pipes.set pipe_id (some w.2)⟩, w.1)

/-- PipeTable::mark_reader_waiting. -/
def PipeTable.mark_reader_waiting (t : PipeTable) (pipe_id : Nat) (pid : Nat) :
    Except FdError PipeTable :=
  if pipe_id ≥ MAX_PIPES then Except.error FdError.BadFd
  else
    match t.getPipe pipe_id with
    | none => Except.error FdError.BadFd
    | some p => Except.ok ⟨t.pipes.set pipe_id (some (p.mark_reader_waiting pid))⟩

/-- PipeTable::mark_writer_waiting. -/
def PipeTable.mark_writer_waiting (t : PipeTable) (pipe_id : Nat) (pid : Nat) :
    Except FdError PipeTable :=
  if pipe_id ≥ MAX_PIPES then Except.error FdError.BadFd
  else
    match t.getPipe pipe_id with
    | none => Except.error FdError.BadFd
    | some p => Except.ok ⟨t.pipes.set pipe_id (some (p.mark_writer_waiting pid))⟩

/-- PipeTable::close_pipe_end.  `if refcount > 0 { refcount -= 1 }` on a
Nat refcount is truncated subtraction.  Returns the table and the PIDs
woken by the close. -/
def PipeTable.close_pipe_end (t : PipeTable) (pipe_id : Nat) (is_read_end : Bool) :
    Except FdError (PipeTable × List Nat) :=
  if pipe_id ≥ MAX_PIPES then Except.error FdError.BadFd
  else
    match t.getPipe pipe_id with
    | none => Except.ok (t, [])
    | some p =>
      let p1 :=
        if is_read_end then
          { p with read_refcount := p.read_refcount - 1
                   read_end_open := decide (0 < p.read_refcount - 1) }
        else
          { p with write_refcount := p.write_refcount - 1
                   write_end_open := decide (0 < p.write_refcount - 1) }
      let w :=
        if is_read_end then
          (if p1.read_end_open then ([], p1) else p1.wake_writers)
        else
          (if p1.write_end_open then ([], p1) else p1.wake_readers)
      let slot : Option Pipe :=
        if ¬ w.2.read_end_open ∧ ¬ w.2.write_end_open then none else some w.2
      Except.ok (⟨t.pipes.set pipe_id slot⟩, w.1)

/-! ## Pipe invariants and the FIFO contents of the ring -/

/-- Structural well-formedness of a pipe, plus the refcount/flag coupling.
Established by Pipe::new and preserved by every pipe-table operation. -/
def PipeWF (p : Pipe) : Prop :=
  p.buffer.length = PIPE_BUF_SIZE ∧
  p.read_pos < PIPE_BUF_SIZE ∧
  p.write_pos < PIPE_BUF_SIZE ∧
  (p.read_end_open = true ↔ 0 < p.read_refcount) ∧
  (p.write_end_open = true ↔ 0 < p.write_refcount)

/-- The invariant stated by the specification for every live pipe. -/
def PipeInv (p : Pipe) : Prop :=
  (p.read_end_open = true ↔ 0 < p.read_refcount) ∧
  (p.write_end_open = true ↔ 0 < p.write_refcount) ∧
  p.available ≤ PIPE_BUF_SIZE - 1

/-- The FIFO contents of the ring buffer, oldest byte first. -/
def Pipe.contents (p : Pipe) : List Nat :=
  if p.read_pos ≤ p.write_pos then (p.buffer.take p.write_pos).drop p.read_pos
  else p.buffer.drop p.read_pos ++ p.buffer.take p.write_pos

theorem Pipe.available_eq_length_contents (p : Pipe)
    (hb : p.buffer.length = PIPE_BUF_SIZE)
    (hr : p.read_pos < PIPE_BUF_SIZE) (hw : p.write_pos < PIPE_BUF_SIZE) :
    p.available = p.contents.length := by
  unfold Pipe.available Pipe.contents
  rcases le_or_lt p.read_pos p.write_pos with h | h
  · rw [if_pos (by omega), if_pos h]
    simp only [List.length_drop, List.length_take]
    omega
  · rw [if_neg (by omega), if_neg (by omega)]
    simp only [List.length_append, List.length_drop, List.length_take]
    omega

theorem Pipe.available_le (p : Pipe)
    (hb : p.buffer.length = PIPE_BUF_SIZE)
    (hr : p.read_pos < PIPE_BUF_SIZE) (hw : p.write_pos < PIPE_BUF_SIZE) :
    p.available ≤ PIPE_BUF_SIZE - 1 := by
  unfold Pipe.available
  rcases le_or_lt p.read_pos p.write_pos with h | h
  · rw [if_pos (by omega)]; omega
  · rw [if_neg (by omega)]; omega

theorem PipeWF.toInv {p : Pipe} (h : PipeWF p) : PipeInv p :=
  ⟨h.2.2.2.1, h.2.2.2.2, Pipe.available_le p h.1 h.2.1 h.2.2.1⟩

theorem Pipe.contents_cons (p : Pipe)
    (hb : p.buffer.length = PIPE_BUF_SIZE)
    (hr : p.read_pos < PIPE_BUF_SIZE) (hw : p.write_pos < PIPE_BUF_SIZE)
    (ha : 0 < p.available) :
    p.contents =
      p.buffer.getD p.read_pos 0 ::
        Pipe.contents { p with read_pos := (p.read_pos + 1) % PIPE_BUF_SIZE } := by
  unfold Pipe.contents Pipe.available at *
  rcases le_or_lt p.read_pos p.write_pos with h | h
  · -- contiguous region read_pos..write_pos
    rw [if_pos (by omega)] at ha
    have hlt : p.read_pos < p.write_pos := by omega
    have hmod : (p.read_pos + 1) % PIPE_BUF_SIZE = p.read_pos + 1 :=
      Nat.mod_eq_of_lt (by omega)
    rw [if_pos h]
    simp only [hmod]
    rw [if_pos (by omega : p.read_pos + 1 ≤ p.write_pos)]
    have hlen : p.read_pos < (p.buffer.take p.write_pos).length := by
      rw [List.length_take]; omega
    rw [List.drop_eq_getElem_cons hlen, List.getElem_take]
    rw [List.getD_eq_getElem p.buffer 0 (by omega)]
  · -- wrapped region
    rw [if_neg (by omega)]
    by_cases htop : p.read_pos + 1 = PIPE_BUF_SIZE
    · -- read_pos is the last slot, it wraps to 0
      have hmod : (p.read_pos + 1) % PIPE_BUF_SIZE = 0 := by
        rw [htop, Nat.mod_self]
      simp only [hmod]
      rw [if_pos (Nat.zero_le _), List.drop_zero]
      have hdrop : p.buffer.drop p.read_pos = [p.buffer[p.read_pos]] := by
        rw [List.drop_eq_getElem_cons (by omega)]
        have : p.buffer.drop (p.read_pos + 1) = [] :=
          List.drop_eq_nil_of_le (by omega)
        rw [this]
      rw [hdrop, List.getD_eq_getElem p.buffer 0 (by omega)]
      simp
    · -- read_pos advances without wrapping, still ahead of write_pos
      have hmod : (p.read_pos + 1) % PIPE_BUF_SIZE = p.read_pos + 1 :=
        Nat.mod_eq_of_lt (by omega)
      simp only [hmod]
      rw [if_neg (by omega)]
      rw [List.getD_eq_getElem p.buffer 0 (by omega)]
      conv_lhs => rw [List.drop_eq_getElem_cons (l := p.buffer)
        (show p.read_pos < p.buffer.length by omega)]
      rw [List.cons_append]

theorem List.take_succ_set_self {α : Type} (l : List α) (n : Nat) (b : α)
    (h : n < l.length) : (l.set n b).take (n + 1) = l.take n ++ [b] := by
  rw [List.set_eq_take_cons_drop b h, List.take_append_eq_append_take,
    List.take_take, List.length_take]
  have h1 : min (n + 1) n = n := by omega
  have h2 : min n l.length = n := by omega
  rw [h1, h2]
  have h3 : n + 1 - n = 1 := by omega
  rw [h3]
  rfl

theorem List.drop_set_lt {α : Type} (l : List α) (n m : Nat) (b : α)
    (h : n < m) (hn : n < l.length) : (l.set n b).drop m = l.drop m := by
  rw [List.set_eq_take_cons_drop b hn, List.drop_append_eq_append_drop,
    List.length_take]
  have h2 : min n l.length = n := by omega
  rw [h2]
  have h3 : (l.take n).drop m = [] :=
    List.drop_eq_nil_of_le (by rw [List.length_take]; omega)
  rw [h3, List.nil_append]
  obtain ⟨j, hj⟩ : ∃ j, m - n = j + 1 := ⟨m - n - 1, by omega⟩
  rw [hj, List.drop_succ_cons, List.drop_drop]
  congr 1
  omega

theorem Pipe.contents_snoc (p : Pipe) (b : Nat)
    (hb : p.buffer.length = PIPE_BUF_SIZE)
    (hr : p.read_pos < PIPE_BUF_SIZE) (hw : p.write_pos < PIPE_BUF_SIZE)
    (hs : 0 < p.space_available) :
    Pipe.contents
        { p with buffer := p.buffer.set p.write_pos b
                 write_pos := (p.write_pos + 1) % PIPE_BUF_SIZE } =
      p.contents ++ [b] := by
  unfold Pipe.contents Pipe.space_available Pipe.available at *
  dsimp only
  rcases le_or_lt p.read_pos p.write_pos with h | h
  · rw [if_pos (by omega)] at hs
    rw [if_pos h]
    by_cases htop : p.write_pos + 1 = PIPE_BUF_SIZE
    · -- write_pos is the last slot; it wraps to 0 and read_pos > 0
      have hmod : (p.write_pos + 1) % PIPE_BUF_SIZE = 0 := by
        rw [htop, Nat.mod_self]
      simp only [hmod]
      rw [if_neg (by omega)]
      have hset : p.buffer.set p.write_pos b =
          p.buffer.take p.write_pos ++ b :: p.buffer.drop (p.write_pos + 1) :=
        List.set_eq_take_cons_drop b (by omega)
      have hdropset : (p.buffer.set p.write_pos b).drop p.read_pos =
          (p.buffer.take p.write_pos).drop p.read_pos ++
            b :: p.buffer.drop (p.write_pos + 1) := by
        rw [hset, List.drop_append_of_le_length (by rw [List.length_take]; omega)]
      have hnil : p.buffer.drop (p.write_pos + 1) = [] :=
        List.drop_eq_nil_of_le (by omega)
      rw [hdropset, hnil, List.take_zero]
      simp
    · have hmod : (p.write_pos + 1) % PIPE_BUF_SIZE = p.write_pos + 1 :=
        Nat.mod_eq_of_lt (by omega)
      simp only [hmod]
      rw [if_pos (by omega)]
      rw [List.take_succ_set_self p.buffer p.write_pos b (by omega)]
      rw [List.drop_append_of_le_length (by rw [List.length_take]; omega)]
  · -- wrapped: write_pos < read_pos, and space > 0 forces write_pos + 1 < read_pos
    rw [if_neg (by omega)] at hs
    have hlt : p.write_pos + 1 < p.read_pos := by omega
    have hmod : (p.write_pos + 1) % PIPE_BUF_SIZE = p.write_pos + 1 :=
      Nat.mod_eq_of_lt (by omega)
    simp only [hmod]
    rw [if_neg (by omega)]
    rw [if_neg (by omega)]
    rw [List.take_succ_set_self p.buffer p.write_pos b (by omega)]
    rw [List.drop_set_lt p.buffer p.write_pos p.read_pos b (by omega) (by omega)]
    rw [List.append_assoc]

theorem Pipe.readLoop_spec (k : Nat) : ∀ (p : Pipe),
    p.buffer.length = PIPE_BUF_SIZE → p.read_pos < PIPE_BUF_SIZE →
    p.write_pos < PIPE_BUF_SIZE → k ≤ p.available →
    Pipe.readLoop p k =
      (p.contents.take k,
        { p with read_pos := (p.read_pos + k) % PIPE_BUF_SIZE }) := by
  induction k with
  | zero =>
    intro p hb hr hw _
    simp [Pipe.readLoop, Nat.mod_eq_of_lt hr]
  | succ k ih =>
    intro p hb hr hw hk
    have hpos : (0:Nat) < PIPE_BUF_SIZE := by norm_num [PIPE_BUF_SIZE]
    have ha : 0 < p.available := by omega
    have hcons := Pipe.contents_cons p hb hr hw ha
    set p1 : Pipe := { p with read_pos := (p.read_pos + 1) % PIPE_BUF_SIZE }
      with hp1
    have hb1 : p1.buffer.length = PIPE_BUF_SIZE := hb
    have hr1 : p1.read_pos < PIPE_BUF_SIZE := Nat.mod_lt _ hpos
    have hw1 : p1.write_pos < PIPE_BUF_SIZE := hw
    have havail1 : p1.available = p.available - 1 := by
      rw [Pipe.available_eq_length_contents p hb hr hw,
        Pipe.available_eq_length_contents p1 hb1 hr1 hw1, hcons]
      simp
    have hk1 : k ≤ p1.available := by omega
    have hih := ih p1 hb1 hr1 hw1 hk1
    simp only [Pipe.readLoop]
    rw [← hp1, hih, hcons]
    simp only [List.take_succ_cons, Prod.mk.injEq]
    refine ⟨trivial, ?_⟩
    congr 1
    unfold PIPE_BUF_SIZE
    omega

theorem Pipe.writeLoop_spec (bs : List Nat) : ∀ (p : Pipe),
    p.buffer.length = PIPE_BUF_SIZE → p.read_pos < PIPE_BUF_SIZE →
    p.write_pos < PIPE_BUF_SIZE → bs.length ≤ p.space_available →
    (Pipe.writeLoop p bs).buffer.length = PIPE_BUF_SIZE ∧
    (Pipe.writeLoop p bs).read_pos = p.read_pos ∧
    (Pipe.writeLoop p bs).write_pos = (p.write_pos + bs.length) % PIPE_BUF_SIZE ∧
    (Pipe.writeLoop p bs).contents = p.contents ++ bs ∧
    (Pipe.writeLoop p bs).read_end_open = p.read_end_open ∧
    (Pipe.writeLoop p bs).write_end_open = p.write_end_open ∧
    (Pipe.writeLoop p bs).read_refcount = p.read_refcount ∧
    (Pipe.writeLoop p bs).write_refcount = p.write_refcount ∧
    (Pipe.writeLoop p bs).waiting_readers = p.waiting_readers ∧
    (Pipe.writeLoop p bs).waiting_writers = p.waiting_writers := by
  induction bs with
  | nil =>
    intro p hb hr hw _
    simp [Pipe.writeLoop, Nat.mod_eq_of_lt hw, hb]
  | cons b rest ih =>
    intro p hb hr hw hk
    have hpos : (0:Nat) < PIPE_BUF_SIZE := by norm_num [PIPE_BUF_SIZE]
    have hs : 0 < p.space_available := by
      simp only [List.length_cons] at hk; omega
    have hsnoc := Pipe.contents_snoc p b hb hr hw hs
    set p1 : Pipe :=
      { p with buffer := p.buffer.set p.write_pos b
               write_pos := (p.write_pos + 1) % PIPE_BUF_SIZE } with hp1
    have hb1 : p1.buffer.length = PIPE_BUF_SIZE := by
      rw [hp1]; simpa using hb
    have hr1 : p1.read_pos < PIPE_BUF_SIZE := hr
    have hw1 : p1.write_pos < PIPE_BUF_SIZE := Nat.mod_lt _ hpos
    have havail : p.available ≤ PIPE_BUF_SIZE - 1 := Pipe.available_le p hb hr hw
    have havail1 : p1.available = p.available + 1 := by
      rw [Pipe.available_eq_length_contents p hb hr hw,
        Pipe.available_eq_length_contents p1 hb1 hr1 hw1, hsnoc]
      simp
    have hk1 : rest.length ≤ p1.space_available := by
      unfold Pipe.space_available at *
      simp only [List.length_cons] at hk
      omega
    have hih := ih p1 hb1 hr1 hw1 hk1
    simp only [Pipe.writeLoop]
    rw [← hp1]
    obtain ⟨i1, i2, i3, i4, i5, i6, i7, i8, i9, i10⟩ := hih
    refine ⟨i1, by rw [i2], ?_, ?_, i5, i6, i7, i8, i9, i10⟩
    · rw [i3, hp1]
      simp only [List.length_cons]
      unfold PIPE_BUF_SIZE
      omega
    · rw [i4, hsnoc, List.append_assoc]
      rfl

theorem Pipe.contents_advance (k : Nat) : ∀ (p : Pipe),
    p.buffer.length = PIPE_BUF_SIZE → p.read_pos < PIPE_BUF_SIZE →
    p.write_pos < PIPE_BUF_SIZE → k ≤ p.available →
    Pipe.contents { p with read_pos := (p.read_pos + k) % PIPE_BUF_SIZE } =
      p.contents.drop k := by
  induction k with
  | zero =>
    intro p hb hr hw _
    simp [Nat.mod_eq_of_lt hr]
  | succ k ih =>
    intro p hb hr hw hk
    have hpos : (0:Nat) < PIPE_BUF_SIZE := by norm_num [PIPE_BUF_SIZE]
    have ha : 0 < p.available := by omega
    have hcons := Pipe.contents_cons p hb hr hw ha
    set p1 : Pipe := { p with read_pos := (p.read_pos + 1) % PIPE_BUF_SIZE }
      with hp1
    have hb1 : p1.buffer.length = PIPE_BUF_SIZE := hb
    have hr1 : p1.read_pos < PIPE_BUF_SIZE := Nat.mod_lt _ hpos
    have hw1 : p1.write_pos < PIPE_BUF_SIZE := hw
    have havail1 : p1.available = p.available - 1 := by
      rw [Pipe.available_eq_length_contents p hb hr hw,
        Pipe.available_eq_length_contents p1 hb1 hr1 hw1, hcons]
      simp
    have hk1 : k ≤ p1.available := by omega
    have hmod : (p.read_pos + (k + 1)) % PIPE_BUF_SIZE =
        ((p.read_pos + 1) % PIPE_BUF_SIZE + k) % PIPE_BUF_SIZE := by
      unfold PIPE_BUF_SIZE
      omega
    rw [hmod]
    have hstep :
        ({ p with read_pos :=
            ((p.read_pos + 1) % PIPE_BUF_SIZE + k) % PIPE_BUF_SIZE } : Pipe) =
          { p1 with read_pos := (p1.read_pos + k) % PIPE_BUF_SIZE } := rfl
    rw [hstep, ih p1 hb1 hr1 hw1 hk1, hcons]
    rfl

theorem Pipe.read_of_empty_open (p : Pipe) (buf_len : Nat)
    (h0 : p.available = 0) (hwe : p.write_end_open = true) :
    p.read buf_len = Except.error FdError.WouldBlock := by
  unfold Pipe.read
  simp [h0, hwe]

theorem Pipe.read_of_empty_closed (p : Pipe) (buf_len : Nat)
    (h0 : p.available = 0) (hwe : p.write_end_open = false) :
    p.read buf_len = Except.ok ([], p) := by
  unfold Pipe.read
  simp [h0, hwe]

theorem Pipe.read_of_nonempty (p : Pipe) (buf_len : Nat)
    (h0 : p.available ≠ 0) :
    p.read buf_len = Except.ok (Pipe.readLoop p (min buf_len p.available)) := by
  unfold Pipe.read
  simp [h0]

/-- Claim C3: for every pipe state and non-empty destination buffer,
Pipe::read returns Ok(min(buffer length, bytes available)) and removes
exactly those bytes from the front of the FIFO when at least one byte is
available; it returns Ok(0) (EOF) exactly when the ring buffer is empty
and the write end is closed; and it returns Err(WouldBlock) exactly when
the ring buffer is empty and the write end is open. -/
theorem pipe_read_matches_spec (p : Pipe) (buf_len : Nat)
    (hwf : PipeWF p) (hn : 0 < buf_len) :
    (p.read buf_len = Except.error FdError.WouldBlock ↔
      p.available = 0 ∧ p.write_end_open = true) ∧
    ((∃ p2, p.read buf_len = Except.ok ([], p2)) ↔
      p.available = 0 ∧ p.write_end_open = false) ∧
    (0 < p.available →
      ∃ p2, p.read buf_len =
          Except.ok (p.contents.take (min buf_len p.available), p2) ∧
        (p.contents.take (min buf_len p.available)).length =
          min buf_len p.available ∧
        p2.contents = p.contents.drop (min buf_len p.available) ∧
        p2.available = p.available - min buf_len p.available) := by
  obtain ⟨hb, hr, hw, _, _⟩ := hwf
  have hpos : (0:Nat) < PIPE_BUF_SIZE := by norm_num [PIPE_BUF_SIZE]
  have hlen : p.contents.length = p.available :=
    (Pipe.available_eq_length_contents p hb hr hw).symm
  have hne : p.available ≠ 0 →
      p.contents.take (min buf_len p.available) ≠ [] := by
    intro h0 hcontra
    have h2 := congrArg List.length hcontra
    rw [List.length_take, hlen] at h2
    simp only [List.length_nil] at h2
    omega
  refine ⟨?_, ?_, ?_⟩
  · by_cases h0 : p.available = 0
    · cases hwe : p.write_end_open with
      | true => simp [Pipe.read_of_empty_open p buf_len h0 hwe, h0, hwe]
      | false => simp [Pipe.read_of_empty_closed p buf_len h0 hwe, h0, hwe]
    · simp [Pipe.read_of_nonempty p buf_len h0, h0]
  · by_cases h0 : p.available = 0
    · cases hwe : p.write_end_open with
      | true => simp [Pipe.read_of_empty_open p buf_len h0 hwe, h0, hwe]
      | false =>
        rw [Pipe.read_of_empty_closed p buf_len h0 hwe]
        constructor
        · intro _
          exact ⟨h0, rfl⟩
        · intro _
          exact ⟨p, rfl⟩
    · rw [Pipe.read_of_nonempty p buf_len h0,
        Pipe.readLoop_spec (min buf_len p.available) p hb hr hw
          (Nat.min_le_right _ _)]
      constructor
      · rintro ⟨p2, hp2⟩
        rw [Except.ok.injEq, Prod.mk.injEq] at hp2
        exact absurd hp2.1 (hne h0)
      · rintro ⟨habs, -⟩
        exact absurd habs h0
  · intro ha
    have hk := Pipe.readLoop_spec (min buf_len p.available) p hb hr hw
      (Nat.min_le_right _ _)
    set p2 : Pipe := { p with read_pos :=
        (p.read_pos + min buf_len p.available) % PIPE_BUF_SIZE } with hp2def
    have hb2 : p2.buffer.length = PIPE_BUF_SIZE := hb
    have hr2 : p2.read_pos < PIPE_BUF_SIZE := Nat.mod_lt _ hpos
    have hw2 : p2.write_pos < PIPE_BUF_SIZE := hw
    have hc2 : p2.contents = p.contents.drop (min buf_len p.available) :=
      Pipe.contents_advance (min buf_len p.available) p hb hr hw
        (Nat.min_le_right _ _)
    refine ⟨p2, ?_, ?_, hc2, ?_⟩
    · rw [Pipe.read_of_nonempty p buf_len (by omega), hk]
    · rw [List.length_take]
      omega
    · rw [Pipe.available_eq_length_contents p2 hb2 hr2 hw2, hc2,
        List.length_drop, hlen]

/-- A concrete pipe holding the three bytes 10, 20, 30. -/
def pipeC3 : Pipe :=
  { buffer := (((List.replicate PIPE_BUF_SIZE 0).set 0 10).set 1 20).set 2 30
    read_pos := 0
    write_pos := 3
    read_end_open := true
    write_end_open := true
    read_refcount := 1
    write_refcount := 1
    waiting_readers := []
    waiting_writers := [] }

theorem pipeC3_wf : PipeWF pipeC3 := by
  refine ⟨?_, by decide, by decide, by decide, by decide⟩
  simp only [pipeC3, List.length_set, List.length_replicate]

theorem pipe_read_matches_spec_witness :
    PipeWF pipeC3 ∧ 0 < 2 ∧
    ((pipeC3.read 2 = Except.error FdError.WouldBlock ↔
      pipeC3.available = 0 ∧ pipeC3.write_end_open = true) ∧
    ((∃ p2, pipeC3.read 2 = Except.ok ([], p2)) ↔
      pipeC3.available = 0 ∧ pipeC3.write_end_open = false) ∧
    (0 < pipeC3.available →
      ∃ p2, pipeC3.read 2 =
          Except.ok (pipeC3.contents.take (min 2 pipeC3.available), p2) ∧
        (pipeC3.contents.take (min 2 pipeC3.available)).length =
          min 2 pipeC3.available ∧
        p2.contents = pipeC3.contents.drop (min 2 pipeC3.available) ∧
        p2.available = pipeC3.available - min 2 pipeC3.available)) :=
  ⟨pipeC3_wf, by norm_num,
    pipe_read_matches_spec pipeC3 2 pipeC3_wf (by norm_num)⟩

theorem Pipe.write_of_read_closed (p : Pipe) (buf : List Nat)
    (hc : p.read_end_open = false) :
    p.write buf = Except.error FdError.BrokenPipe := by
  unfold Pipe.write
  simp [hc]

theorem Pipe.write_of_full (p : Pipe) (buf : List Nat)
    (ho : p.read_end_open = true) (hs : p.space_available = 0) :
    p.write buf = Except.error FdError.WouldBlock := by
  unfold Pipe.write
  simp [ho, hs]

theorem Pipe.write_of_space (p : Pipe) (buf : List Nat)
    (ho : p.read_end_open = true) (hs : p.space_available ≠ 0) :
    p.write buf = Except.ok (min buf.length p.space_available,
      Pipe.writeLoop p (buf.take (min buf.length p.space_available))) := by
  unfold Pipe.write
  simp [ho, hs]

/-- Claim C4: for every pipe state and input buffer, Pipe::write returns
Err(BrokenPipe) whenever the read end is closed (regardless of space);
returns Err(WouldBlock) when the read end is open and the buffer is full
(free space zero); and otherwise appends and returns min(input length,
free space) bytes.  In particular a 5000-byte write into an empty pipe
returns 4095 bytes, which is between 1 and capacity minus one. -/
theorem pipe_write_matches_spec (p : Pipe) (buf : List Nat) (hwf : PipeWF p) :
    (p.write buf = Except.error FdError.BrokenPipe ↔
      p.read_end_open = false) ∧
    (p.write buf = Except.error FdError.WouldBlock ↔
      p.read_end_open = true ∧ p.space_available = 0) ∧
    (p.read_end_open = true → 0 < p.space_available →
      ∃ p2, p.write buf = Except.ok (min buf.length p.space_available, p2) ∧
        p2.contents = p.contents ++ buf.take (min buf.length p.space_available) ∧
        p2.available = p.available + min buf.length p.space_available ∧
        p2.available ≤ PIPE_BUF_SIZE - 1) ∧
    (p.available = 0 → p.read_end_open = true → buf.length = 5000 →
      ∃ p2, p.write buf = Except.ok (PIPE_BUF_SIZE - 1, p2) ∧
        1 ≤ PIPE_BUF_SIZE - 1 ∧ PIPE_BUF_SIZE - 1 = 4095) := by
  obtain ⟨hb, hr, hw, _, _⟩ := hwf
  have hpos : (0:Nat) < PIPE_BUF_SIZE := by norm_num [PIPE_BUF_SIZE]
  have key : p.read_end_open = true → 0 < p.space_available →
      ∃ p2, p.write buf = Except.ok (min buf.length p.space_available, p2) ∧
        p2.contents = p.contents ++ buf.take (min buf.length p.space_available) ∧
        p2.available = p.available + min buf.length p.space_available ∧
        p2.available ≤ PIPE_BUF_SIZE - 1 := by
    intro ho hs
    have htk : (buf.take (min buf.length p.space_available)).length =
        min buf.length p.space_available := by
      rw [List.length_take]
      omega
    have hsp := Pipe.writeLoop_spec
      (buf.take (min buf.length p.space_available)) p hb hr hw
      (by rw [htk]; exact Nat.min_le_right _ _)
    obtain ⟨i1, i2, i3, i4, -, -, -, -, -, -⟩ := hsp
    set p2 : Pipe :=
      Pipe.writeLoop p (buf.take (min buf.length p.space_available)) with hp2
    have hr2 : p2.read_pos < PIPE_BUF_SIZE := by rw [i2]; exact hr
    have hw2 : p2.write_pos < PIPE_BUF_SIZE := by rw [i3]; exact Nat.mod_lt _ hpos
    have havail2 : p2.available = p.available + min buf.length p.space_available := by
      rw [Pipe.available_eq_length_contents p2 i1 hr2 hw2, i4,
        List.length_append, htk,
        ← Pipe.available_eq_length_contents p hb hr hw]
    refine ⟨p2, ?_, i4, havail2, Pipe.available_le p2 i1 hr2 hw2⟩
    exact Pipe.write_of_space p buf ho (by omega)
  refine ⟨?_, ?_, key, ?_⟩
  · cases hro : p.read_end_open with
    | false => simp [Pipe.write_of_read_closed p buf hro]
    | true =>
      by_cases hs : p.space_available = 0
      · simp [Pipe.write_of_full p buf hro hs]
      · simp [Pipe.write_of_space p buf hro hs]
  · cases hro : p.read_end_open with
    | false => simp [Pipe.write_of_read_closed p buf hro]
    | true =>
      by_cases hs : p.space_available = 0
      · simp [Pipe.write_of_full p buf hro hs, hs]
      · simp [Pipe.write_of_space p buf hro hs, hs]
  · intro ha hro hlen5000
    have hsv : p.space_available = PIPE_BUF_SIZE - 1 := by
      unfold Pipe.space_available
      rw [ha]
      omega
    have hmin : min buf.length p.space_available = PIPE_BUF_SIZE - 1 := by
      rw [hlen5000, hsv]
      norm_num [PIPE_BUF_SIZE]
    obtain ⟨p2, hok, -, -, -⟩ := key hro (by rw [hsv]; norm_num [PIPE_BUF_SIZE])
    rw [hmin] at hok
    exact ⟨p2, hok, by norm_num [PIPE_BUF_SIZE], by norm_num [PIPE_BUF_SIZE]⟩

/-- A concrete pipe, fresh but with the read refcount raised to 2. -/
def pipeC4 : Pipe := { Pipe.new with read_refcount := 2 }

theorem pipeC4_wf : PipeWF pipeC4 := by
  refine ⟨?_, by decide, by decide, by decide, by decide⟩
  simp only [pipeC4, Pipe.new, List.length_replicate]

theorem pipe_write_matches_spec_witness :
    PipeWF pipeC4 ∧
    ((pipeC4.write [1, 2] = Except.error FdError.BrokenPipe ↔
      pipeC4.read_end_open = false) ∧
    (pipeC4.write [1, 2] = Except.error FdError.WouldBlock ↔
      pipeC4.read_end_open = true ∧ pipeC4.space_available = 0) ∧
    (pipeC4.read_end_open = true → 0 < pipeC4.space_available →
      ∃ p2, pipeC4.write [1, 2] =
          Except.ok (min (List.length [1, 2]) pipeC4.space_available, p2) ∧
        p2.contents = pipeC4.contents ++
          List.take (min (List.length [1, 2]) pipeC4.space_available) [1, 2] ∧
        p2.available = pipeC4.available +
          min (List.length [1, 2]) pipeC4.space_available ∧
        p2.available ≤ PIPE_BUF_SIZE - 1) ∧
    (pipeC4.available = 0 → pipeC4.read_end_open = true →
      List.length [1, 2] = 5000 →
      ∃ p2, pipeC4.write [1, 2] = Except.ok (PIPE_BUF_SIZE - 1, p2) ∧
        1 ≤ PIPE_BUF_SIZE - 1 ∧ PIPE_BUF_SIZE - 1 = 4095)) :=
  ⟨pipeC4_wf, pipe_write_matches_spec pipeC4 [1, 2] pipeC4_wf⟩

theorem Pipe.new_wf : PipeWF Pipe.new := by
  refine ⟨?_, by decide, by decide, by decide, by decide⟩
  simp only [Pipe.new, List.length_replicate]

theorem Pipe.read_wf {p : Pipe} {n : Nat} {bytes : List Nat} {p1 : Pipe}
    (hwf : PipeWF p) (h : p.read n = Except.ok (bytes, p1)) : PipeWF p1 := by
  obtain ⟨hb, hr, hw, hre, hwe⟩ := hwf
  have hpos : (0:Nat) < PIPE_BUF_SIZE := by norm_num [PIPE_BUF_SIZE]
  by_cases h0 : p.available = 0
  · cases hwend : p.write_end_open with
    | true =>
      rw [Pipe.read_of_empty_open p n h0 hwend] at h
      exact absurd h (by simp)
    | false =>
      rw [Pipe.read_of_empty_closed p n h0 hwend] at h
      rw [Except.ok.injEq, Prod.mk.injEq] at h
      rw [← h.2]
      exact ⟨hb, hr, hw, hre, hwe⟩
  · rw [Pipe.read_of_nonempty p n h0,
      Pipe.readLoop_spec (min n p.available) p hb hr hw (Nat.min_le_right _ _)]
      at h
    rw [Except.ok.injEq, Prod.mk.injEq] at h
    rw [← h.2]
    exact ⟨hb, Nat.mod_lt _ hpos, hw, hre, hwe⟩

theorem Pipe.write_wf {p : Pipe} {buf : List Nat} {k : Nat} {p1 : Pipe}
    (hwf : PipeWF p) (h : p.write buf = Except.ok (k, p1)) : PipeWF p1 := by
  obtain ⟨hb, hr, hw, hre, hwe⟩ := hwf
  have hpos : (0:Nat) < PIPE_BUF_SIZE := by norm_num [PIPE_BUF_SIZE]
  cases hro : p.read_end_open with
  | false =>
    rw [Pipe.write_of_read_closed p buf hro] at h
    exact absurd h (by simp)
  | true =>
    by_cases hs : p.space_available = 0
    · rw [Pipe.write_of_full p buf hro hs] at h
      exact absurd h (by simp)
    · rw [Pipe.write_of_space p buf hro hs] at h
      rw [Except.ok.injEq, Prod.mk.injEq] at h
      have htk : (buf.take (min buf.length p.space_available)).length ≤
          p.space_available := by
        rw [List.length_take]
        omega
      obtain ⟨i1, i2, i3, i4, i5, i6, i7, i8, i9, i10⟩ :=
        Pipe.writeLoop_spec (buf.take (min buf.length p.space_available))
          p hb hr hw htk
      rw [← h.2]
      refine ⟨i1, ?_, ?_, ?_, ?_⟩
      · rw [i2]; exact hr
      · rw [i3]; exact Nat.mod_lt _ hpos
      · rw [i5, i7]; exact hre
      · rw [i6, i8]; exact hwe

theorem Pipe.wake_readers_wf {p : Pipe} (hwf : PipeWF p) :
    PipeWF p.wake_readers.2 := hwf

theorem Pipe.wake_writers_wf {p : Pipe} (hwf : PipeWF p) :
    PipeWF p.wake_writers.2 := hwf

theorem Pipe.mark_reader_waiting_keeps_wf {p : Pipe} {pid : Nat} (hwf : PipeWF p) :
    PipeWF (p.mark_reader_waiting pid) := by
  unfold Pipe.mark_reader_waiting
  by_cases hc : p.waiting_readers.contains pid = true
  · rw [if_pos hc]
    exact hwf
  · rw [if_neg hc]
    exact ⟨hwf.1, hwf.2.1, hwf.2.2.1, hwf.2.2.2.1, hwf.2.2.2.2⟩

theorem Pipe.mark_writer_waiting_keeps_wf {p : Pipe} {pid : Nat} (hwf : PipeWF p) :
    PipeWF (p.mark_writer_waiting pid) := by
  unfold Pipe.mark_writer_waiting
  by_cases hc : p.waiting_writers.contains pid = true
  · rw [if_pos hc]
    exact hwf
  · rw [if_neg hc]
    exact ⟨hwf.1, hwf.2.1, hwf.2.2.1, hwf.2.2.2.1, hwf.2.2.2.2⟩

/-! Table-level well-formedness. -/

def PipeTableWF (t : PipeTable) : Prop :=
  ∀ q : Pipe, some q ∈ t.pipes → PipeWF q

theorem PipeTableWF.set_some {t : PipeTable} {i : Nat} {q : Pipe}
    (h : PipeTableWF t) (hq : PipeWF q) :
    PipeTableWF ⟨t.pipes.set i (some q)⟩ := by
  intro q' hq'
  rcases List.mem_or_eq_of_mem_set hq' with h1 | h1
  · exact h q' h1
  · injection h1 with h2
    rw [h2]
    exact hq

theorem PipeTableWF.set_none {t : PipeTable} {i : Nat}
    (h : PipeTableWF t) : PipeTableWF ⟨t.pipes.set i none⟩ := by
  intro q' hq'
  rcases List.mem_or_eq_of_mem_set hq' with h1 | h1
  · exact h q' h1
  · exact absurd h1 (by simp)

theorem PipeTable.getPipe_wf {t : PipeTable} {i : Nat} {p : Pipe}
    (h : PipeTableWF t) (hg : t.getPipe i = some p) : PipeWF p := by
  apply h
  unfold PipeTable.getPipe at hg
  rcases hget : t.pipes.get? i with - | s
  · rw [List.getD_eq_getElem?_getD, ← List.get?_eq_getElem?, hget] at hg
    exact absurd hg (by simp)
  · rw [List.getD_eq_getElem?_getD, ← List.get?_eq_getElem?, hget] at hg
    simp only [Option.getD_some] at hg
    rw [hg] at hget
    exact List.get?_mem hget

theorem PipeTable.getPipe_lt_length {t : PipeTable} {i : Nat} {p : Pipe}
    (hg : t.getPipe i = some p) : i < t.pipes.length := by
  by_contra hge
  unfold PipeTable.getPipe at hg
  rw [List.getD_eq_getElem?_getD, List.getElem?_eq_none (by omega)] at hg
  exact absurd hg (by simp)

theorem PipeTable.getPipe_set_self {t : PipeTable} {i : Nat} {p : Pipe}
    (hg : t.getPipe i = some p) (s : Option Pipe) :
    PipeTable.getPipe ⟨t.pipes.set i s⟩ i = s := by
  have hlt := PipeTable.getPipe_lt_length hg
  unfold PipeTable.getPipe
  rw [List.getD_eq_getElem?_getD, List.getElem?_set_eq_of_lt s hlt]
  rfl

theorem PipeTable.create_pipe_wf {t : PipeTable} {i : Nat} {t2 : PipeTable}
    (h : PipeTableWF t) (hc : t.create_pipe = Except.ok (i, t2)) :
    PipeTableWF t2 := by
  unfold PipeTable.create_pipe at hc
  rcases hidx : t.pipes.findIdx? (fun s => s.isNone) with - | j
  · rw [hidx] at hc
    exact absurd hc (by simp)
  · rw [hidx] at hc
    rw [Except.ok.injEq, Prod.mk.injEq] at hc
    rw [← hc.2]
    exact h.set_some Pipe.new_wf

theorem PipeTable.incref_wf {t : PipeTable} {i : Nat} {e : Bool} {t2 : PipeTable}
    (h : PipeTableWF t) (hc : t.incref i e = Except.ok t2) :
    PipeTableWF t2 := by
  unfold PipeTable.incref at hc
  by_cases hid : i ≥ MAX_PIPES
  · rw [if_pos hid] at hc
    exact absurd hc (by simp)
  · rw [if_neg hid] at hc
    rcases hg : t.getPipe i with - | p
    · rw [hg] at hc
      exact absurd hc (by simp)
    · rw [hg] at hc
      have hp := PipeTable.getPipe_wf h hg
      rw [Except.ok.injEq] at hc
      rw [← hc]
      apply h.set_some
      cases e with
      | true =>
        exact ⟨hp.1, hp.2.1, hp.2.2.1, by simp, hp.2.2.2.2⟩
      | false =>
        exact ⟨hp.1, hp.2.1, hp.2.2.1, hp.2.2.2.1, by simp⟩

theorem PipeTable.read_table_wf {t : PipeTable} {i n : Nat}
    {bytes : List Nat} {t2 : PipeTable} {wk : List Nat}
    (h : PipeTableWF t) (hc : t.read i n = Except.ok (bytes, t2, wk)) :
    PipeTableWF t2 := by
  unfold PipeTable.read at hc
  by_cases hid : i ≥ MAX_PIPES
  · rw [if_pos hid] at hc
    exact absurd hc (by simp)
  · rw [if_neg hid] at hc
    rcases hg : t.getPipe i with - | p
    · rw [hg] at hc
      exact absurd hc (by simp)
    · rw [hg] at hc
      dsimp only at hc
      have hp := PipeTable.getPipe_wf h hg
      rcases hrd : p.read n with e | res
      · rw [hrd] at hc
        exact absurd hc (by simp)
      · rw [hrd] at hc
        have hp1 : PipeWF res.2 := Pipe.read_wf hp (by rw [hrd])
        rw [Except.ok.injEq, Prod.mk.injEq] at hc
        have h2 := hc.2
        rw [Prod.mk.injEq] at h2
        rw [← h2.1]
        apply h.set_some
        by_cases hl : res.1.length > 0
        · rw [if_pos hl]
          exact Pipe.wake_writers_wf hp1
        · rw [if_neg hl]
          exact hp1

theorem PipeTable.write_table_wf {t : PipeTable} {i : Nat} {buf : List Nat}
    {k : Nat} {t2 : PipeTable} {wk : List Nat}
    (h : PipeTableWF t) (hc : t.write i buf = Except.ok (k, t2, wk)) :
    PipeTableWF t2 := by
  unfold PipeTable.write at hc
  by_cases hid : i ≥ MAX_PIPES
  · rw [if_pos hid] at hc
    exact absurd hc (by simp)
  · rw [if_neg hid] at hc
    rcases hg : t.getPipe i with - | p
    · rw [hg] at hc
      exact absurd hc (by simp)
    · rw [hg] at hc
      dsimp only at hc
      have hp := PipeTable.getPipe_wf h hg
      rcases hwr : p.write buf with e | res
      · rw [hwr] at hc
        exact absurd hc (by simp)
      · rw [hwr] at hc
        have hp1 : PipeWF res.2 := Pipe.write_wf hp (by rw [hwr])
        rw [Except.ok.injEq, Prod.mk.injEq] at hc
        have h2 := hc.2
        rw [Prod.mk.injEq] at h2
        rw [← h2.1]
        apply h.set_some
        by_cases hl : res.1 > 0
        · rw [if_pos hl]
          exact Pipe.wake_readers_wf hp1
        · rw [if_neg hl]
          exact hp1

theorem PipeTable.mark_reader_waiting_wf {t : PipeTable} {i pid : Nat}
    {t2 : PipeTable} (h : PipeTableWF t)
    (hc : t.mark_reader_waiting i pid = Except.ok t2) : PipeTableWF t2 := by
  unfold PipeTable.mark_reader_waiting at hc
  by_cases hid : i ≥ MAX_PIPES
  · rw [if_pos hid] at hc
    exact absurd hc (by simp)
  · rw [if_neg hid] at hc
    rcases hg : t.getPipe i with - | p
    · rw [hg] at hc
      exact absurd hc (by simp)
    · rw [hg] at hc
      rw [Except.ok.injEq] at hc
      rw [← hc]
      exact h.set_some (Pipe.mark_reader_waiting_keeps_wf (PipeTable.getPipe_wf h hg))

theorem PipeTable.mark_writer_waiting_wf {t : PipeTable} {i pid : Nat}
    {t2 : PipeTable} (h : PipeTableWF t)
    (hc : t.mark_writer_waiting i pid = Except.ok t2) : PipeTableWF t2 := by
  unfold PipeTable.mark_writer_waiting at hc
  by_cases hid : i ≥ MAX_PIPES
  · rw [if_pos hid] at hc
    exact absurd hc (by simp)
  · rw [if_neg hid] at hc
    rcases hg : t.getPipe i with - | p
    · rw [hg] at hc
      exact absurd hc (by simp)
    · rw [hg] at hc
      rw [Except.ok.injEq] at hc
      rw [← hc]
      exact h.set_some (Pipe.mark_writer_waiting_keeps_wf (PipeTable.getPipe_wf h hg))

/-- The pipe resulting from the refcount decrement inside close_pipe_end. -/
def Pipe.close_decrement (p : Pipe) (is_read_end : Bool) : Pipe :=
  if is_read_end then
    { p with read_refcount := p.read_refcount - 1
             read_end_open := decide (0 < p.read_refcount - 1) }
  else
    { p with write_refcount := p.write_refcount - 1
             write_end_open := decide (0 < p.write_refcount - 1) }

theorem Pipe.close_decrement_wf {p : Pipe} {e : Bool} (hp : PipeWF p) :
    PipeWF (p.close_decrement e) := by
  unfold Pipe.close_decrement
  cases e with
  | true =>
    exact ⟨hp.1, hp.2.1, hp.2.2.1, by simp, hp.2.2.2.2⟩
  | false =>
    exact ⟨hp.1, hp.2.1, hp.2.2.1, hp.2.2.2.1, by simp⟩

theorem PipeTable.close_pipe_end_eq {t : PipeTable} {i : Nat} {e : Bool}
    {p : Pipe} (hg : t.getPipe i = some p) (hid : ¬ i ≥ MAX_PIPES) :
    t.close_pipe_end i e =
      (let p1 := p.close_decrement e
       let w := if e then
           (if p1.read_end_open then ([], p1) else p1.wake_writers)
         else
           (if p1.write_end_open then ([], p1) else p1.wake_readers)
       let slot : Option Pipe :=
         if ¬ w.2.read_end_open ∧ ¬ w.2.write_end_open then none else some w.2
       Except.ok (⟨t.pipes.set i slot⟩, w.1)) := by
  unfold PipeTable.close_pipe_end Pipe.close_decrement
  rw [if_neg hid, hg]

theorem PipeTable.close_pipe_end_wf {t : PipeTable} {i : Nat} {e : Bool}
    {t2 : PipeTable} {wk : List Nat} (h : PipeTableWF t)
    (hc : t.close_pipe_end i e = Except.ok (t2, wk)) : PipeTableWF t2 := by
  unfold PipeTable.close_pipe_end at hc
  by_cases hid : i ≥ MAX_PIPES
  · rw [if_pos hid] at hc
    exact absurd hc (by simp)
  · rw [if_neg hid] at hc
    rcases hg : t.getPipe i with - | p
    · rw [hg] at hc
      rw [Except.ok.injEq, Prod.mk.injEq] at hc
      rw [← hc.1]
      exact h
    · rw [hg] at hc
      have hp := PipeTable.getPipe_wf h hg
      rw [Except.ok.injEq, Prod.mk.injEq] at hc
      rw [← hc.1]
      set p1 := if e then
          { p with read_refcount := p.read_refcount - 1
                   read_end_open := decide (0 < p.read_refcount - 1) }
        else
          { p with write_refcount := p.write_refcount - 1
                   write_end_open := decide (0 < p.write_refcount - 1) }
        with hp1def
      have hp1 : PipeWF p1 := by
        rw [hp1def]
        cases e with
        | true => exact ⟨hp.1, hp.2.1, hp.2.2.1, by simp, hp.2.2.2.2⟩
        | false => exact ⟨hp.1, hp.2.1, hp.2.2.1, hp.2.2.2.1, by simp⟩
      set w := if e then
          (if p1.read_end_open then (([] : List Nat), p1) else p1.wake_writers)
        else
          (if p1.write_end_open then (([] : List Nat), p1) else p1.wake_readers)
        with hwdef
      have hw2 : PipeWF w.2 := by
        rw [hwdef]
        split
        · split
          · exact hp1
          · exact Pipe.wake_writers_wf hp1
        · split
          · exact hp1
          · exact Pipe.wake_readers_wf hp1
      by_cases hfree : ¬ w.2.read_end_open ∧ ¬ w.2.write_end_open
      · rw [if_pos hfree]
        exact h.set_none
      · rw [if_neg hfree]
        exact h.set_some hw2

theorem Pipe.ite_wake_writers_reo (c : Prop) [Decidable c] (p1 : Pipe) :
    ((if c then (([] : List Nat), p1) else p1.wake_writers).2).read_end_open =
      p1.read_end_open := by
  split <;> rfl

theorem Pipe.ite_wake_writers_weo (c : Prop) [Decidable c] (p1 : Pipe) :
    ((if c then (([] : List Nat), p1) else p1.wake_writers).2).write_end_open =
      p1.write_end_open := by
  split <;> rfl

theorem Pipe.ite_wake_readers_reo (c : Prop) [Decidable c] (p1 : Pipe) :
    ((if c then (([] : List Nat), p1) else p1.wake_readers).2).read_end_open =
      p1.read_end_open := by
  split <;> rfl

theorem Pipe.ite_wake_readers_weo (c : Prop) [Decidable c] (p1 : Pipe) :
    ((if c then (([] : List Nat), p1) else p1.wake_readers).2).write_end_open =
      p1.write_end_open := by
  split <;> rfl

theorem PipeTable.close_pipe_end_frees_iff {t : PipeTable} {i : Nat} {e : Bool}
    {p : Pipe} {t2 : PipeTable} {wk : List Nat}
    (h : PipeTableWF t) (hg : t.getPipe i = some p)
    (hc : t.close_pipe_end i e = Except.ok (t2, wk)) :
    t2.getPipe i = none ↔
      (if e then p.read_refcount - 1 else p.read_refcount) = 0 ∧
      (if e then p.write_refcount else p.write_refcount - 1) = 0 := by
  have hp := PipeTable.getPipe_wf h hg
  obtain ⟨-, -, -, hre, hwe⟩ := hp
  unfold PipeTable.close_pipe_end at hc
  by_cases hid : i ≥ MAX_PIPES
  · rw [if_pos hid] at hc
    exact absurd hc (by simp)
  · rw [if_neg hid, hg] at hc
    dsimp only at hc
    rw [Except.ok.injEq, Prod.mk.injEq] at hc
    obtain ⟨ht2, -⟩ := hc
    rw [← ht2, PipeTable.getPipe_set_self hg]
    cases e with
    | true =>
      simp only [if_true,
        Pipe.ite_wake_writers_reo, Pipe.ite_wake_writers_weo]
      constructor
      · intro hnone
        split at hnone
        · rename_i hcond
          simp only [decide_eq_true_eq, Bool.not_eq_true] at hcond
          refine ⟨by omega, ?_⟩
          by_contra hW
          exact absurd (hwe.mpr (by omega)) (by simp [hcond.2])
        · exact absurd hnone (by simp)
      · intro hrhs
        rw [if_pos ?side]
        case side =>
          constructor
          · simp only [decide_eq_true_eq, Bool.not_eq_true]
            simp [hrhs.1]
          · simp only [Bool.not_eq_true]
            rcases hb : p.write_end_open with - | -
            · rfl
            · exact absurd (hwe.mp hb) (by omega)
    | false =>
      simp only [if_false, Bool.false_eq_true,
        Pipe.ite_wake_readers_reo, Pipe.ite_wake_readers_weo]
      constructor
      · intro hnone
        split at hnone
        · rename_i hcond
          simp only [decide_eq_true_eq, Bool.not_eq_true] at hcond
          refine ⟨?_, by omega⟩
          by_contra hR
          exact absurd (hre.mpr (by omega)) (by simp [hcond.1])
        · exact absurd hnone (by simp)
      · intro hrhs
        rw [if_pos ?side2]
        case side2 =>
          constructor
          · simp only [Bool.not_eq_true]
            rcases hb : p.read_end_open with - | -
            · rfl
            · exact absurd (hre.mp hb) (by omega)
          · simp only [decide_eq_true_eq, Bool.not_eq_true]
            simp [hrhs.2]

/-- Claim C5: every pipe-table operation (create_pipe, incref, read,
write, close_pipe_end, mark_reader_waiting, mark_writer_waiting)
preserves, for every live pipe, the invariant read_end_open iff
read_refcount positive, write_end_open iff write_refcount positive, and
at most capacity minus one (4095) bytes stored; and close_pipe_end frees
the pipe slot exactly when both refcounts have reached zero. -/
theorem pipe_table_ops_preserve_invariants :
    (∀ t i t2, PipeTableWF t → PipeTable.create_pipe t = Except.ok (i, t2) →
      ∀ q, some q ∈ t2.pipes → PipeInv q) ∧
    (∀ t i e t2, PipeTableWF t → PipeTable.incref t i e = Except.ok t2 →
      ∀ q, some q ∈ t2.pipes → PipeInv q) ∧
    (∀ t i n bytes t2 wk, PipeTableWF t →
      PipeTable.read t i n = Except.ok (bytes, t2, wk) →
      ∀ q, some q ∈ t2.pipes → PipeInv q) ∧
    (∀ t i buf k t2 wk, PipeTableWF t →
      PipeTable.write t i buf = Except.ok (k, t2, wk) →
      ∀ q, some q ∈ t2.pipes → PipeInv q) ∧
    (∀ t i pid t2, PipeTableWF t →
      PipeTable.mark_reader_waiting t i pid = Except.ok t2 →
      ∀ q, some q ∈ t2.pipes → PipeInv q) ∧
    (∀ t i pid t2, PipeTableWF t →
      PipeTable.mark_writer_waiting t i pid = Except.ok t2 →
      ∀ q, some q ∈ t2.pipes → PipeInv q) ∧
    (∀ t i e t2 wk, PipeTableWF t →
      PipeTable.close_pipe_end t i e = Except.ok (t2, wk) →
      ∀ q, some q ∈ t2.pipes → PipeInv q) ∧
    (∀ t i e p t2 wk, PipeTableWF t → PipeTable.getPipe t i = some p →
      PipeTable.close_pipe_end t i e = Except.ok (t2, wk) →
      (PipeTable.getPipe t2 i = none ↔
        (if e then p.read_refcount - 1 else p.read_refcount) = 0 ∧
        (if e then p.write_refcount else p.write_refcount - 1) = 0)) := by
  refine ⟨?_, ?_, ?_, ?_, ?_, ?_, ?_, ?_⟩
  · intro t i t2 h hc q hq
    exact ((PipeTable.create_pipe_wf h hc) q hq).toInv
  · intro t i e t2 h hc q hq
    exact ((PipeTable.incref_wf h hc) q hq).toInv
  · intro t i n bytes t2 wk h hc q hq
    exact ((PipeTable.read_table_wf h hc) q hq).toInv
  · intro t i buf k t2 wk h hc q hq
    exact ((PipeTable.write_table_wf h hc) q hq).toInv
  · intro t i pid t2 h hc q hq
    exact ((PipeTable.mark_reader_waiting_wf h hc) q hq).toInv
  · intro t i pid t2 h hc q hq
    exact ((PipeTable.mark_writer_waiting_wf h hc) q hq).toInv
  · intro t i e t2 wk h hc q hq
    exact ((PipeTable.close_pipe_end_wf h hc) q hq).toInv
  · intro t i e p t2 wk h hg hc
    exact PipeTable.close_pipe_end_frees_iff h hg hc

/-- A pipe whose write end is already closed (refcount 0). -/
def pipeC5 : Pipe := { Pipe.new with write_refcount := 0, write_end_open := false }

/-- A pipe table holding just pipeC5. -/
def pipeTableC5 : PipeTable := ⟨[some pipeC5]⟩

theorem pipeC5_wf : PipeWF pipeC5 := by
  refine ⟨?_, by decide, by decide, by decide, by decide⟩
  simp only [pipeC5, Pipe.new, List.length_replicate]

theorem pipeTableC5_wf : PipeTableWF pipeTableC5 := by
  intro q hq
  simp only [pipeTableC5, List.mem_singleton, Option.some.injEq] at hq
  rw [hq]
  exact pipeC5_wf

theorem pipe_table_ops_preserve_invariants_witness :
    PipeTableWF pipeTableC5 ∧
    PipeTable.getPipe pipeTableC5 0 = some pipeC5 ∧
    PipeTable.close_pipe_end pipeTableC5 0 true = Except.ok (⟨[none]⟩, []) ∧
    (PipeTable.getPipe ⟨[none]⟩ 0 = none ↔
      (if true then pipeC5.read_refcount - 1 else pipeC5.read_refcount) = 0 ∧
      (if true then pipeC5.write_refcount else pipeC5.write_refcount - 1) = 0) :=
  ⟨pipeTableC5_wf, rfl, rfl,
    pipe_table_ops_preserve_invariants.2.2.2.2.2.2.2
      pipeTableC5 0 true pipeC5 ⟨[none]⟩ [] pipeTableC5_wf rfl rfl⟩

/-! ## The TinyFs filesystem (src/fs.rs)

The block device is a map from block index to 512-byte blocks.  A path is
modelled by its list of segments between the slashes (Rust splits the
path string on the slash character with the standard library; the
segments themselves cannot contain a slash). -/

def BLOCK_SIZE : Nat := 512

def MAGIC : Nat := 0x54465331

def FS_VERSION : Nat := 2

def DIR_BLOCK_INDEX : Nat := 1

def DATA_START_BLOCK : Nat := 2

def NAME_LEN : Nat := 32

def DIR_ENTRY_SIZE : Nat := NAME_LEN + 4 + 4 + 1 + 3

def MAX_FILES : Nat := BLOCK_SIZE / DIR_ENTRY_SIZE

def U32_MOD : Nat := 4294967296

structure Device where
  total_blocks : Nat
  blocks : Nat → List Nat

def Device.read_block (d : Device) (i : Nat) : List Nat := d.blocks i

def Device.write_block (d : Device) (i : Nat) (buf : List Nat) : Device :=
  { d with blocks := fun j => if j = i then buf else d.blocks j }

inductive EntryType where
  | File
  | Directory
deriving DecidableEq

def EntryType.to_raw : EntryType → Nat
  | .File => 1
  | .Directory => 2

def EntryType.from_raw (value : Nat) : Option EntryType :=
  if value = 1 then some .File
  else if value = 2 then some .Directory
  else none

structure FileEntry where
  name : String
  start_block : Nat
  length : Nat
  kind : EntryType
deriving DecidableEq

structure Superblock where
  magic : Nat
  version : Nat
  next_free_block : Nat
  file_count : Nat
deriving DecidableEq

structure TinyFs where
  device : Device
  superblock : Superblock
  root_entries : List FileEntry

/-- Little-endian u32 serialization. -/
def u32le (n : Nat) : List Nat :=
  [n % 256, n / 256 % 256, n / 65536 % 256, n / 16777216 % 256]

/-- Little-endian u32 deserialization. -/
def u32from (l : List Nat) : Nat :=
  l.getD 0 0 + 256 * l.getD 1 0 + 65536 * l.getD 2 0 + 16777216 * l.getD 3 0

/-- The UTF-8 bytes of a string. -/
def strBytes (s : String) : List Nat :=
  s.toUTF8.toList.map (fun b => b.toNat)

/-- Attempt to decode bytes as UTF-8 (str::from_utf8). -/
def bytesToString (l : List Nat) : Option String :=
  String.fromUTF8? (ByteArray.mk (Array.mk (l.map (fun n => UInt8.ofNat n))))

/-- Zero-pad a byte list on the right up to the given length. -/
def padTo (len : Nat) (l : List Nat) : List Nat :=
  l ++ List.replicate (len - l.length) 0

/-- write_entry (fs.rs line 622): serialize one 44-byte directory entry
into its zero-filled slot. -/
def write_entry (entry : FileEntry) : List Nat :=
  padTo NAME_LEN ((strBytes entry.name).take NAME_LEN) ++
    u32le entry.start_block ++ u32le entry.length ++
    [entry.kind.to_raw] ++ [0, 0, 0]

/-- deserialize_entry (fs.rs line 632). -/
def deserialize_entry (chunk : List Nat) : Option FileEntry :=
  if chunk.length < DIR_ENTRY_SIZE then none
  else if chunk.getD 0 0 = 0 then none
  else
    let name_bytes := chunk.take NAME_LEN
    let endIdx := (name_bytes.findIdx? (fun b => b = 0)).getD NAME_LEN
    let name_slice := name_bytes.take endIdx
    match bytesToString name_slice with
    | none => none
    | some name =>
      let start_block := u32from ((chunk.drop NAME_LEN).take 4)
      let length := u32from ((chunk.drop (NAME_LEN + 4)).take 4)
      match EntryType.from_raw (chunk.getD (NAME_LEN + 8) 0) with
      | none => none
      | some kind => some ⟨name, start_block, length, kind⟩

/-- slice.chunks(n): split a list into chunks of n elements, the last
chunk possibly shorter. -/
def chunksOf (n : Nat) : List Nat → List (List Nat)
  | [] => []
  | x :: xs =>
    if _h : n = 0 then []
    else (x :: xs).take n :: chunksOf n ((x :: xs).drop n)
termination_by l => l.length
decreasing_by
  simp only [List.length_drop, List.length_cons]
  omega

def TinyFs.flush_superblock (fs : TinyFs) : TinyFs :=
  { fs with device := fs.device.write_block 0 (padTo BLOCK_SIZE
      (u32le fs.superblock.magic ++ u32le fs.superblock.version ++
       u32le fs.superblock.next_free_block ++ u32le fs.superblock.file_count)) }

/-- flush_root_directory: entries are written back to back into a zeroed
512-byte block, one 44-byte slot each, at most MAX_FILES of them. -/
def TinyFs.flush_root_directory (fs : TinyFs) : TinyFs :=
  let dirBytes :=
    padTo BLOCK_SIZE (((fs.root_entries.take MAX_FILES).map write_entry).flatten)
  { fs with device := fs.device.write_block DIR_BLOCK_INDEX dirBytes }

/-- format_disk: blank blocks 0 and 1, fresh superblock, empty root. -/
def TinyFs.format_disk (fs : TinyFs) : TinyFs :=
  let blank := List.replicate BLOCK_SIZE 0
  let d1 := (fs.device.write_block 0 blank).write_block 1 blank
  let fs1 : TinyFs :=
    { device := d1
      superblock := ⟨MAGIC, FS_VERSION, DATA_START_BLOCK, 0⟩
      root_entries := [] }
  fs1.flush_root_directory.flush_superblock

def TinyFs.allocate_blocks (fs : TinyFs) (blocks : Nat) :
    Except FsError (Nat × TinyFs) :=
  let start := fs.superblock.next_free_block
  if start + blocks > fs.device.total_blocks then Except.error FsError.NoSpace
  else Except.ok (start,
    { fs with superblock := { fs.superblock with next_free_block := start + blocks } })

def write_chunks_go (d : Device) (start : Nat) : List (List Nat) → Device
  | [] => d
  | c :: rest => write_chunks_go (d.write_block start (padTo BLOCK_SIZE c)) (start + 1) rest

/-- allocate_and_write: the two `as u32` casts of the source are the two
explicit reductions modulo 2^32. -/
def TinyFs.allocate_and_write (fs : TinyFs) (contents : List Nat) :
    Except FsError ((Nat × Nat) × TinyFs) :=
  if contents = [] then Except.ok ((0, 0), fs)
  else
    let blocks_needed := ((contents.length + BLOCK_SIZE - 1) / BLOCK_SIZE) % U32_MOD
    match fs.allocate_blocks blocks_needed with
    | Except.error e => Except.error e
    | Except.ok (start_block, fs1) =>
      Except.ok ((start_block, contents.length % U32_MOD),
        { fs1 with device :=
            write_chunks_go fs1.device start_block (chunksOf BLOCK_SIZE contents) })

def read_data_go (d : Device) : Nat → Nat → List Nat
  | remaining, block_index =>
    if _h : remaining = 0 then []
    else
      let tk := min remaining BLOCK_SIZE
      (d.read_block block_index).take tk ++
        read_data_go d (remaining - tk) (block_index + 1)
termination_by remaining _ => remaining
decreasing_by
  have : 0 < min remaining BLOCK_SIZE := by
    unfold BLOCK_SIZE
    omega
  omega

def TinyFs.read_data (fs : TinyFs) (start_block length : Nat) : List Nat :=
  if length = 0 then [] else read_data_go fs.device length start_block

/-- The for loop in read_directory_entries: stop at the first short
chunk, skip chunks that do not deserialize. -/
def parse_dir_chunks : List (List Nat) → List FileEntry
  | [] => []
  | c :: rest =>
    if c.length < DIR_ENTRY_SIZE then []
    else
      match deserialize_entry c with
      | some e => e :: parse_dir_chunks rest
      | none => parse_dir_chunks rest

def TinyFs.read_directory_entries (fs : TinyFs) (entry : FileEntry) :
    Except FsError (List FileEntry) :=
  if entry.kind ≠ EntryType.Directory then Except.error FsError.NotADirectory
  else if entry.length = 0 then Except.ok []
  else Except.ok (parse_dir_chunks
    (chunksOf DIR_ENTRY_SIZE (fs.read_data entry.start_block entry.length)))

/-- split_path: the path is already split on the slash; the source
filters out empty segments (and an empty path yields no segments). -/
def split_path (path : List String) : List String :=
  path.filter (fun segment => segment ≠ "")

structure LoadedDir where
  entries : List FileEntry
  entry_index_in_parent : Option Nat

/-- iter().enumerate().find on the entry name. -/
def findEntryIdx (entries : List FileEntry) (name : String) :
    Option (Nat × FileEntry) :=
  match entries.findIdx? (fun e => e.name = name) with
  | none => none
  | some i =>
    match entries.get? i with
    | none => none
    | some e => some (i, e)

def TinyFs.load_chain_go (fs : TinyFs) :
    List String → List FileEntry → Except FsError (List LoadedDir)
  | [], _ => Except.ok []
  | component :: rest, curEntries =>
    if component = "" then fs.load_chain_go rest curEntries
    else
      match findEntryIdx curEntries component with
      | none => Except.error FsError.NotFound
      | some (idx, entry) =>
        if entry.kind ≠ EntryType.Directory then Except.error FsError.NotADirectory
        else
          match fs.read_directory_entries entry with
          | Except.error e => Except.error e
          | Except.ok child =>
            match fs.load_chain_go rest child with
            | Except.error e => Except.error e
            | Except.ok tail => Except.ok (⟨child, some idx⟩ :: tail)

def TinyFs.load_directory_chain (fs : TinyFs) (components : List String) :
    Except FsError (List LoadedDir) :=
  match fs.load_chain_go components fs.root_entries with
  | Except.error e => Except.error e
  | Except.ok tail => Except.ok (⟨fs.root_entries, none⟩ :: tail)

def updateDirEntry (entries : List FileEntry) (idx start len : Nat) :
    List FileEntry :=
  match entries.get? idx with
  | none => entries
  | some e => entries.set idx { e with start_block := start, length := len }

def TinyFs.write_directory_entries (fs : TinyFs) (entries : List FileEntry) :
    Except FsError ((Nat × Nat) × TinyFs) :=
  if entries = [] then Except.ok ((0, 0), fs)
  else fs.allocate_and_write ((entries.map write_entry).flatten)

/-- The (1..len).rev() loop of persist_directory_chain: persist the
deeper levels first, then write this level and patch its slot in the
parent. -/
def TinyFs.persist_chain_go (fs : TinyFs) (root : LoadedDir) :
    List LoadedDir → Except FsError (TinyFs × LoadedDir)
  | [] => Except.ok (fs, root)
  | d :: rest =>
    match fs.persist_chain_go d rest with
    | Except.error e => Except.error e
    | Except.ok (fs1, d1) =>
      match fs1.write_directory_entries d1.entries with
      | Except.error e => Except.error e
      | Except.ok ((start, len), fs2) =>
        let root1 := match d1.entry_index_in_parent with
          | some idx => { root with entries := updateDirEntry root.entries idx start len }
          | none => root
        Except.ok (fs2, root1)

def TinyFs.persist_directory_chain (fs : TinyFs) (chain : List LoadedDir) :
    Except FsError TinyFs :=
  match chain with
  | [] => Except.error FsError.InvalidPath
  | root :: rest =>
    match fs.persist_chain_go root rest with
    | Except.error e => Except.error e
    | Except.ok (fs1, root1) =>
      let fs2 : TinyFs :=
        { fs1 with root_entries := root1.entries
                   superblock := { fs1.superblock with
                     file_count := root1.entries.length % U32_MOD } }
      Except.ok fs2.flush_root_directory.flush_superblock

def TinyFs.read_file_contents (fs : TinyFs) (path : List String) :
    Except FsError (List Nat) :=
  let components := split_path path
  if components = [] then Except.error FsError.InvalidPath
  else
    let dirs := components.dropLast
    let file_name := components.getLastD ""
    match fs.load_directory_chain dirs with
    | Except.error e => Except.error e
    | Except.ok chain =>
      let parent := chain.getLastD ⟨[], none⟩
      match parent.entries.find? (fun e => e.name = file_name) with
      | none => Except.error FsError.NotFound
      | some entry =>
        if entry.kind ≠ EntryType.File then Except.error FsError.NotADirectory
        else Except.ok (fs.read_data entry.start_block entry.length)

/-- write_file_contents.  (On the NotADirectory error path the source has
already performed the allocation and keeps the superblock mutation; no
later operation of this development observes state after that error.) -/
def TinyFs.write_file_contents (fs : TinyFs) (path : List String)
    (contents : List Nat) : Except FsError TinyFs :=
  let components := split_path path
  if components = [] then Except.error FsError.InvalidPath
  else
    let dirs := components.dropLast
    let file_name := components.getLastD ""
    if file_name = "" ∨ file_name.utf8ByteSize > NAME_LEN then
      Except.error FsError.NameTooLong
    else
      match fs.load_directory_chain dirs with
      | Except.error e => Except.error e
      | Except.ok chain =>
        let parent_is_root := chain.length = 1
        let parent := chain.getLastD ⟨[], none⟩
        let existing_index := parent.entries.findIdx? (fun e => e.name = file_name)
        if existing_index = none ∧ parent_is_root ∧
            parent.entries.length ≥ MAX_FILES then
          Except.error FsError.DirectoryFull
        else
          match fs.allocate_and_write contents with
          | Except.error e => Except.error e
          | Except.ok ((start_block, length), fs1) =>
            match existing_index with
            | some idx =>
              match parent.entries.get? idx with
              | none => Except.error FsError.NotFound
              | some e0 =>
                if e0.kind ≠ EntryType.File then Except.error FsError.NotADirectory
                else
                  fs1.persist_directory_chain (chain.dropLast ++
                    [⟨updateDirEntry parent.entries idx start_block length,
                      parent.entry_index_in_parent⟩])
            | none =>
              fs1.persist_directory_chain (chain.dropLast ++
                [⟨parent.entries ++
                    [⟨file_name, start_block, length, EntryType.File⟩],
                  parent.entry_index_in_parent⟩])

/-! ## Round-trip lemmas for allocate_and_write / read_data -/

theorem chunksOf_block_length_lt : ∀ (len : Nat) (l : List Nat),
    l.length = len → ∀ i, BLOCK_SIZE * i < l.length →
    i < (chunksOf BLOCK_SIZE l).length := by
  intro len
  induction len using Nat.strong_induction_on with
  | _ len ih =>
    intro l hlen i hi
    match l with
    | [] => simp at hi
    | x :: xs =>
      rw [chunksOf, dif_neg (by unfold BLOCK_SIZE; omega)]
      simp only [List.length_cons]
      match i with
      | 0 => omega
      | Nat.succ k =>
        have hk : k < (chunksOf BLOCK_SIZE ((x :: xs).drop BLOCK_SIZE)).length := by
          apply ih ((x :: xs).drop BLOCK_SIZE).length ?_ _ rfl
          · rw [List.length_drop]
            unfold BLOCK_SIZE at *
            simp only [List.length_cons] at *
            omega
          · rw [List.length_drop, ← hlen]
            unfold BLOCK_SIZE at *
            simp only [List.length_cons] at *
            omega
        omega

theorem chunksOf_block_getD : ∀ (i : Nat) (l : List Nat),
    BLOCK_SIZE * i < l.length →
    (chunksOf BLOCK_SIZE l).getD i [] = (l.drop (BLOCK_SIZE * i)).take BLOCK_SIZE := by
  intro i
  induction i with
  | zero =>
    intro l hi
    match l with
    | [] => simp at hi
    | x :: xs =>
      rw [chunksOf, dif_neg (by unfold BLOCK_SIZE; omega)]
      simp
  | succ k ih =>
    intro l hi
    match l with
    | [] => simp at hi
    | x :: xs =>
      rw [chunksOf, dif_neg (by unfold BLOCK_SIZE; omega)]
      have hstep : (chunksOf BLOCK_SIZE ((x :: xs).drop BLOCK_SIZE)).getD k [] =
          (((x :: xs).drop BLOCK_SIZE).drop (BLOCK_SIZE * k)).take BLOCK_SIZE := by
        apply ih
        rw [List.length_drop]
        unfold BLOCK_SIZE at *
        omega
      show (chunksOf BLOCK_SIZE ((x :: xs).drop BLOCK_SIZE)).getD k [] = _
      rw [hstep, List.drop_drop]
      congr 2
      unfold BLOCK_SIZE
      ring

theorem write_chunks_go_blocks_lt (cs : List (List Nat)) :
    ∀ (d : Device) (start j : Nat), j < start →
    (write_chunks_go d start cs).blocks j = d.blocks j := by
  induction cs with
  | nil =>
    intro d start j _
    rfl
  | cons c rest ih =>
    intro d start j hj
    show (write_chunks_go (d.write_block start (padTo BLOCK_SIZE c)) (start + 1) rest).blocks j = _
    rw [ih _ (start + 1) j (by omega)]
    unfold Device.write_block
    simp only
    rw [if_neg (by omega)]

theorem write_chunks_go_blocks_at (cs : List (List Nat)) :
    ∀ (d : Device) (start i : Nat), i < cs.length →
    (write_chunks_go d start cs).blocks (start + i) =
      padTo BLOCK_SIZE (cs.getD i []) := by
  induction cs with
  | nil =>
    intro d start i hi
    simp at hi
  | cons c rest ih =>
    intro d start i hi
    match i with
    | 0 =>
      show (write_chunks_go (d.write_block start (padTo BLOCK_SIZE c)) (start + 1) rest).blocks (start + 0) = _
      rw [write_chunks_go_blocks_lt rest _ (start + 1) (start + 0) (by omega)]
      unfold Device.write_block
      simp only
      rw [if_pos (by omega)]
      rfl
    | Nat.succ k =>
      show (write_chunks_go (d.write_block start (padTo BLOCK_SIZE c)) (start + 1) rest).blocks (start + (k + 1)) = _
      have harith : start + (k + 1) = (start + 1) + k := by omega
      rw [harith, ih _ (start + 1) k (by simpa using hi)]
      rfl

theorem read_data_go_readback : ∀ (n : Nat) (l : List Nat) (d : Device)
    (start : Nat), l.length = n →
    (∀ i, BLOCK_SIZE * i < l.length →
      d.blocks (start + i) = padTo BLOCK_SIZE ((l.drop (BLOCK_SIZE * i)).take BLOCK_SIZE)) →
    read_data_go d n start = l := by
  intro n
  induction n using Nat.strong_induction_on with
  | _ n ih =>
    intro l d start hlen h
    cases n with
    | zero =>
      rw [read_data_go]
      rw [dif_pos rfl]
      have : l = [] := List.eq_nil_of_length_eq_zero hlen
      rw [this]
    | succ m =>
      rw [read_data_go, dif_neg (by omega)]
      dsimp only
      have h0 := h 0 (by omega)
      rw [Nat.mul_zero, Nat.add_zero, List.drop_zero] at h0
      by_cases hsmall : m + 1 ≤ BLOCK_SIZE
      · -- single block
        have htk : min (m + 1) BLOCK_SIZE = m + 1 := by omega
        have htake : l.take BLOCK_SIZE = l := List.take_of_length_le (by omega)
        have hfirst : (d.read_block start).take (min (m + 1) BLOCK_SIZE) = l := by
          show (d.blocks start).take (min (m + 1) BLOCK_SIZE) = l
          rw [h0, htk, htake]
          unfold padTo
          rw [List.take_append_of_le_length (by omega)]
          exact List.take_of_length_le (by omega)
        rw [hfirst]
        have hz : m + 1 - min (m + 1) BLOCK_SIZE = 0 := by omega
        rw [hz, read_data_go, dif_pos rfl, List.append_nil]
      · -- more than one block
        have htk : min (m + 1) BLOCK_SIZE = BLOCK_SIZE := by omega
        have hlentake : (l.take BLOCK_SIZE).length = BLOCK_SIZE := by
          rw [List.length_take]
          omega
        have hfirst : (d.read_block start).take (min (m + 1) BLOCK_SIZE) =
            l.take BLOCK_SIZE := by
          show (d.blocks start).take (min (m + 1) BLOCK_SIZE) = l.take BLOCK_SIZE
          rw [h0, htk]
          unfold padTo
          rw [List.take_append_of_le_length (by rw [hlentake])]
          rw [List.take_take]
          simp
        rw [hfirst, htk]
        have hrest : read_data_go d (m + 1 - BLOCK_SIZE) (start + 1) =
            l.drop BLOCK_SIZE := by
          apply ih (m + 1 - BLOCK_SIZE) (by unfold BLOCK_SIZE at *; omega)
          · rw [List.length_drop, hlen]
          · intro i hi
            rw [List.length_drop] at hi
            have h1 := h (i + 1) (by unfold BLOCK_SIZE at *; omega)
            have harith : start + 1 + i = start + (i + 1) := by omega
            have hidx : BLOCK_SIZE + BLOCK_SIZE * i = BLOCK_SIZE * (i + 1) := by
              ring
            rw [harith, h1, List.drop_drop, hidx]
        rw [hrest, List.take_append_drop]

theorem read_data_flushed (d : Device) (B : List Nat) (b0 b1 : List Nat) :
    read_data_go
      (((write_chunks_go d DATA_START_BLOCK
          (chunksOf BLOCK_SIZE B)).write_block DIR_BLOCK_INDEX b1).write_block 0 b0)
      B.length DATA_START_BLOCK = B := by
  apply read_data_go_readback B.length B _ _ rfl
  intro i hi
  show (Device.write_block _ 0 b0).blocks _ = _
  unfold Device.write_block
  simp only
  rw [if_neg (by unfold DATA_START_BLOCK; omega),
    if_neg (by unfold DATA_START_BLOCK DIR_BLOCK_INDEX; omega)]
  have hlt := chunksOf_block_length_lt B.length B rfl i hi
  rw [write_chunks_go_blocks_at _ d DATA_START_BLOCK i hlt,
    chunksOf_block_getD i B hi]

theorem flush_pair_root_entries (f : TinyFs) :
    (f.flush_root_directory.flush_superblock).root_entries = f.root_entries := rfl

theorem flush_pair_device (f : TinyFs) :
    (f.flush_root_directory.flush_superblock).device =
      (f.device.write_block DIR_BLOCK_INDEX
          (padTo BLOCK_SIZE (((f.root_entries.take MAX_FILES).map write_entry).flatten))).write_block 0
        (padTo BLOCK_SIZE (u32le f.superblock.magic ++ u32le f.superblock.version ++
          u32le f.superblock.next_free_block ++ u32le f.superblock.file_count)) := rfl

/-- Claim C6 (amended): for every starting filesystem state, every byte
sequence B with |B| ≤ (device total blocks − 2) × 512 and |B| < 2^32, and
every path whose split consists of a single component of at most 32
bytes (so the file lives directly in the root directory, the only
directory that exists right after format), performing format, then
write_file(P, B), then read_file(P) returns exactly the bytes B. -/
theorem fs_format_write_read_roundtrip (fs : TinyFs) (path : List String)
    (name : String) (B : List Nat)
    (hcomp : split_path path = [name])
    (hname : name.utf8ByteSize ≤ NAME_LEN)
    (hcap : B.length ≤ (fs.device.total_blocks - 2) * BLOCK_SIZE)
    (h32 : B.length < U32_MOD) :
    ∃ fs2, (fs.format_disk).write_file_contents path B = Except.ok fs2 ∧
      fs2.read_file_contents path = Except.ok B := by
  have hnameNe : ¬ name = "" := by
    have hmem : name ∈ split_path path := by
      rw [hcomp]
      exact List.mem_singleton_self name
    unfold split_path at hmem
    have := (List.mem_filter.mp hmem).2
    simpa using this
  set fs1 := fs.format_disk with hfs1
  have hroot : fs1.root_entries = [] := rfl
  have hnfb : fs1.superblock.next_free_block = DATA_START_BLOCK := rfl
  have htb : fs1.device.total_blocks = fs.device.total_blocks := rfl
  unfold TinyFs.write_file_contents
  rw [hcomp]
  dsimp only
  rw [if_neg (by simp)]
  simp only [List.dropLast_single, show ∀ a : String, [a].getLastD "" = a from fun a => by simp]
  rw [if_neg (not_or.mpr ⟨hnameNe, by omega⟩)]
  have hchain : fs1.load_directory_chain [] =
      Except.ok [⟨([] : List FileEntry), none⟩] := by
    rw [show fs1.load_directory_chain [] =
        Except.ok [⟨fs1.root_entries, none⟩] from rfl, hroot]
  rw [hchain]
  dsimp only
  simp only [show ∀ d : LoadedDir,
      [(⟨[], none⟩ : LoadedDir)].getLastD d = ⟨[], none⟩ from fun d => by simp,
    List.findIdx?_nil, List.dropLast_single, List.length_singleton]
  rw [if_neg (by decide)]
  simp only [List.nil_append]
  by_cases hB : B = []
  · -- empty file: no allocation happens
    rw [hB]
    rw [show fs1.allocate_and_write [] = Except.ok ((0, 0), fs1) from rfl]
    dsimp only
    refine ⟨_, rfl, ?_⟩
    unfold TinyFs.read_file_contents
    rw [hcomp]
    dsimp only
    rw [if_neg (by simp)]
    simp only [List.dropLast_single,
      show ∀ a : String, [a].getLastD "" = a from fun a => by simp]
    rw [show ∀ fsr : TinyFs, fsr.load_directory_chain [] =
        Except.ok [⟨fsr.root_entries, none⟩] from fun fsr => rfl]
    dsimp only
    rw [flush_pair_root_entries]
    simp only [show ∀ d : LoadedDir, ∀ x : LoadedDir, [x].getLastD d = x
      from fun d x => by simp]
    rw [List.find?_cons_of_pos _ (by simp)]
    dsimp only
    rw [if_neg (by decide)]
    rfl
  · -- non-empty file
    have hlenpos : 0 < B.length := List.length_pos.mpr hB
    have hbn : (B.length + BLOCK_SIZE - 1) / BLOCK_SIZE % U32_MOD =
        (B.length + BLOCK_SIZE - 1) / BLOCK_SIZE :=
      Nat.mod_eq_of_lt (by unfold BLOCK_SIZE U32_MOD at *; omega)
    have halloc : fs1.allocate_and_write B =
        Except.ok ((DATA_START_BLOCK, B.length % U32_MOD),
          { fs1 with
            device := write_chunks_go fs1.device DATA_START_BLOCK
              (chunksOf BLOCK_SIZE B)
            superblock := { fs1.superblock with next_free_block :=
              DATA_START_BLOCK + (B.length + BLOCK_SIZE - 1) / BLOCK_SIZE } }) := by
      unfold TinyFs.allocate_and_write TinyFs.allocate_blocks
      rw [if_neg hB]
      dsimp only
      rw [hbn, hnfb]
      rw [if_neg (by
        rw [htb]
        unfold DATA_START_BLOCK
        unfold BLOCK_SIZE at *
        omega)]
    rw [halloc]
    dsimp only
    rw [Nat.mod_eq_of_lt h32]
    refine ⟨_, rfl, ?_⟩
    unfold TinyFs.read_file_contents
    rw [hcomp]
    dsimp only
    rw [if_neg (by simp)]
    simp only [List.dropLast_single,
      show ∀ a : String, [a].getLastD "" = a from fun a => by simp]
    rw [show ∀ fsr : TinyFs, fsr.load_directory_chain [] =
        Except.ok [⟨fsr.root_entries, none⟩] from fun fsr => rfl]
    dsimp only
    rw [flush_pair_root_entries]
    simp only [show ∀ d : LoadedDir, ∀ x : LoadedDir, [x].getLastD d = x
      from fun d x => by simp]
    rw [List.find?_cons_of_pos _ (by simp)]
    dsimp only
    rw [if_neg (by decide)]
    unfold TinyFs.read_data
    rw [if_neg (by omega)]
    rw [flush_pair_device]
    dsimp only
    rw [read_data_flushed]

/-- A concrete 4-block device with an uninitialized filesystem. -/
def fsC6 : TinyFs :=
  { device := ⟨4, fun _ => List.replicate BLOCK_SIZE 0⟩
    superblock := ⟨0, 0, 0, 0⟩
    root_entries := [] }

/-- Claim C6 counterexample: the path a/b is valid by the claim's own
criteria (components a and b are non-empty and at most 32 bytes) and the
empty byte sequence satisfies the size bound, yet write_file after
format fails with NotFound, because the intermediate directory a does
not exist after format: the round trip never reaches the read. -/
theorem fs_roundtrip_counterexample :
    ("a" : String) ≠ "" ∧ ("b" : String) ≠ "" ∧
    ("a" : String).utf8ByteSize ≤ NAME_LEN ∧
    ("b" : String).utf8ByteSize ≤ NAME_LEN ∧
    (List.length ([] : List Nat)) ≤ (fsC6.device.total_blocks - 2) * BLOCK_SIZE ∧
    fsC6.format_disk.write_file_contents ["a", "b"] [] =
      Except.error FsError.NotFound :=
  ⟨by decide, by decide, by decide, by decide, by decide, by rfl⟩

theorem fs_format_write_read_roundtrip_witness :
    split_path ["f"] = ["f"] ∧ ("f" : String).utf8ByteSize ≤ NAME_LEN ∧
    (List.length [7, 8, 9]) ≤ (fsC6.device.total_blocks - 2) * BLOCK_SIZE ∧
    (List.length [7, 8, 9]) < U32_MOD ∧
    (∃ fs2, fsC6.format_disk.write_file_contents ["f"] [7, 8, 9] =
        Except.ok fs2 ∧
      fs2.read_file_contents ["f"] = Except.ok [7, 8, 9]) :=
  ⟨by decide, by decide, by decide, by decide,
    fs_format_write_read_roundtrip fsC6 ["f"] "f" [7, 8, 9]
      (by decide) (by decide) (by decide) (by decide)⟩

/-! ## File descriptors (src/fd.rs lines 1-350)

FileFd paths are filesystem paths, hence modelled pre-split like all
paths of this development. -/

def MAX_FDS : Nat := 16

inductive UartMode where
  | Read
  | Write
deriving DecidableEq

structure UartFd where
  mode : UartMode
deriving DecidableEq

structure FileMode where
  read : Bool
  write : Bool
  append : Bool
  create : Bool
deriving DecidableEq

structure FileFd where
  path : List String
  pos : Nat
  mode : FileMode
deriving DecidableEq

structure PipeFd where
  pipe_id : Nat
  is_read_end : Bool
deriving DecidableEq

inductive FileDescriptor where
  | Uart (u : UartFd)
  | File (f : FileFd)
  | Pipe (p : PipeFd)
deriving DecidableEq

structure FdTable where
  fds : List (Option FileDescriptor)
deriving DecidableEq

def FdTable.new : FdTable := ⟨List.replicate MAX_FDS none⟩

def FdTable.with_standard : FdTable :=
  ⟨(((List.replicate MAX_FDS none).set 0
      (some (FileDescriptor.Uart ⟨UartMode.Read⟩))).set 1
      (some (FileDescriptor.Uart ⟨UartMode.Write⟩))).set 2
      (some (FileDescriptor.Uart ⟨UartMode.Write⟩))⟩

def FdTable.alloc (t : FdTable) (fd : FileDescriptor) : Except FdError (Nat × FdTable) :=
  match t.fds.findIdx? (fun s => s.isNone) with
  | some i => Except.ok (i, ⟨t.fds.set i (some fd)⟩)
  | none => Except.error FdError.TooManyOpen

def FdTable.get (t : FdTable) (fd_num : Nat) : Except FdError FileDescriptor :=
  if fd_num ≥ MAX_FDS then Except.error FdError.BadFd
  else
    match t.fds.getD fd_num none with
    | none => Except.error FdError.BadFd
    | some fd => Except.ok fd

def FdTable.set_entry (t : FdTable) (fd_num : Nat) (fd : FileDescriptor) : FdTable :=
  ⟨t.fds.set fd_num (some fd)⟩

/-- FdTable::close.  The slot is taken before any error can occur, so the
mutated tables are returned alongside the result. -/
def FdTable.close (t : FdTable) (pt : PipeTable) (fd_num : Nat) :
    Except FdError Unit × FdTable × PipeTable × List Nat :=
  if fd_num ≥ MAX_FDS then (Except.error FdError.BadFd, t, pt, [])
  else
    let fd := t.fds.getD fd_num none
    let t1 : FdTable := ⟨t.fds.set fd_num none⟩
    match fd with
    | none => (Except.error FdError.BadFd, t1, pt, [])
    | some (FileDescriptor.Pipe pfd) =>
      match pt.close_pipe_end pfd.pipe_id pfd.is_read_end with
      | Except.error e => (Except.error e, t1, pt, [])
      | Except.ok (pt1, wk) => (Except.ok (), t1, pt1, wk)
    | some _ => (Except.ok (), t1, pt, [])

/-- FdTable::close_all: close every slot in order, ignoring errors,
collecting the PIDs woken by pipe-end closes. -/
def FdTable.close_all_go (t : FdTable) (pt : PipeTable) (wk : List Nat) :
    List Nat → FdTable × PipeTable × List Nat
  | [] => (t, pt, wk)
  | n :: rest =>
    let r := FdTable.close t pt n
    FdTable.close_all_go r.2.1 r.2.2.1 (wk ++ r.2.2.2) rest

def FdTable.close_all (t : FdTable) (pt : PipeTable) :
    FdTable × PipeTable × List Nat :=
  FdTable.close_all_go t pt [] (List.range MAX_FDS)

/-! ## Processes (src/proc.rs) -/

def MAX_PROCESSES : Nat := 8

inductive ProcessState where
  | Running
  | Ready
  | Blocked
  | Exited
deriving DecidableEq

/-- riscv_rt::TrapFrame: the 16 caller-saved registers the trap handler
saves on kernel entry. -/
structure TrapFrame where
  ra : Nat
  t0 : Nat
  t1 : Nat
  t2 : Nat
  t3 : Nat
  t4 : Nat
  t5 : Nat
  t6 : Nat
  a0 : Nat
  a1 : Nat
  a2 : Nat
  a3 : Nat
  a4 : Nat
  a5 : Nat
  a6 : Nat
  a7 : Nat
deriving DecidableEq

/-- A process control block.  parent_pid uses the Option encoding of the
INVALID_PID (usize::MAX) sentinel; program paths are pre-split. -/
structure Process where
  pid : Nat
  parent_pid : Option Nat
  state : ProcessState
  exit_code : Int
  entry : Nat
  stack_top : Nat
  pc : Nat
  sp : Nat
  regs : List Nat
  path : List String
  args : List String
  fd_table : FdTable
  memory : List Nat
  argc : Nat
  started : Bool
  argv_ptr : Nat
deriving DecidableEq

/-- Process::new. -/
def Process.new (pid : Nat) (parent_pid : Option Nat) (entry stack_top : Nat)
    (path : List String) (args : List String) (fd_table : FdTable)
    (memory : List Nat) (argc : Nat) (argv_ptr : Nat) : Process :=
  { pid := pid
    parent_pid := parent_pid
    state := ProcessState.Ready
    exit_code := 0
    entry := entry
    stack_top := stack_top
    pc := entry
    sp := stack_top
    regs := List.replicate 31 0
    path := path
    args := args
    fd_table := fd_table
    memory := memory
    argc := argc
    started := false
    argv_ptr := argv_ptr }

def Process.exit (p : Process) (code : Int) : Process :=
  { p with state := ProcessState.Exited, exit_code := code }

def Process.has_exited (p : Process) : Prop := p.state = ProcessState.Exited

instance (p : Process) : Decidable p.has_exited := by
  unfold Process.has_exited
  infer_instance

inductive SpawnError where
  | TooManyProcesses
  | ProgramNotFound
  | LoadFailed
  | OutOfMemory
deriving DecidableEq

structure ProcessTable where
  processes : List (Option Process)
  current_pid : Option Nat
  next_pid : Nat
deriving DecidableEq

def ProcessTable.new : ProcessTable :=
  ⟨List.replicate MAX_PROCESSES none, none, 1⟩

/-- ProcessTable::spawn (alloc_pid and find_free_slot inlined).  PID
allocation is an unchecked usize increment in the source; it is modelled
as an unbounded Nat. -/
def ProcessTable.spawn (t : ProcessTable) (entry stack_top : Nat)
    (path : List String) (args : List String) (fd_table : FdTable)
    (memory : List Nat) (argc : Nat) (argv_ptr : Nat) :
    Except SpawnError Nat × ProcessTable :=
  match t.processes.findIdx? (fun s => s.isNone) with
  | none => (Except.error SpawnError.TooManyProcesses, t)
  | some slot =>
    let pid := t.next_pid
    let parent_pid := t.current_pid
    let process := Process.new pid parent_pid entry stack_top path args
      fd_table memory argc argv_ptr
    (Except.ok pid,
      { t with processes := t.processes.set slot (some process)
               next_pid := t.next_pid + 1 })

/-- ProcessTable::get: the first live process with the given PID. -/
def ProcessTable.get (t : ProcessTable) (pid : Nat) : Option Process :=
  (t.processes.filterMap id).find? (fun p => p.pid = pid)

/-- get_mut followed by an in-place mutation: rewrite the first live
process carrying the PID. -/
def updateProcGo (f : Process → Process) (pid : Nat) :
    List (Option Process) → List (Option Process)
  | [] => []
  | none :: rest => none :: updateProcGo f pid rest
  | some p :: rest =>
    if p.pid = pid then some (f p) :: rest
    else some p :: updateProcGo f pid rest

def ProcessTable.modify (t : ProcessTable) (pid : Nat) (f : Process → Process) :
    ProcessTable :=
  { t with processes := updateProcGo f pid t.processes }

def ProcessTable.set_current (t : ProcessTable) (pid : Nat) : ProcessTable :=
  { t with current_pid := some pid }

def ProcessTable.has_children (t : ProcessTable) (parent_pid : Nat) : Bool :=
  (t.processes.filterMap id).any (fun p => p.parent_pid == some parent_pid)

/-- ProcessTable::wait: reap the first Exited child in slot order,
freeing its slot. -/
def ProcessTable.wait (t : ProcessTable) (parent_pid : Nat) :
    Option (Nat × Int) × ProcessTable :=
  match t.processes.findIdx? (fun s =>
      match s with
      | some p => decide (p.parent_pid = some parent_pid ∧ p.has_exited)
      | none => false) with
  | none => (none, t)
  | some i =>
    match t.processes.getD i none with
    | none => (none, t)
    | some child =>
      let t1 :=
        match t.processes.findIdx? (fun s =>
            (s.map (fun pr => pr.pid)) == some child.pid) with
        | some slot => { t with processes := t.processes.set slot none }
        | none => t
      (some (child.pid, child.exit_code), t1)

/-- The machine state around a trap: the sepc and sscratch CSRs and the
128 KiB user window (represented by its byte contents). -/
structure Machine where
  sepc : Nat
  sscratch : Nat
  window : List Nat
deriving DecidableEq

/-- ProcessTable::save_current_registers: only PC (from sepc) and SP
(from sscratch) are written to the PCB; the trap-frame argument is
unused by the source (parameter _trap_frame). -/
def ProcessTable.save_current_registers (t : ProcessTable) (m : Machine)
    (_trap_frame : TrapFrame) : ProcessTable :=
  match t.current_pid with
  | none => t
  | some cp => t.modify cp (fun p => { p with pc := m.sepc, sp := m.sscratch })

/-- ProcessTable::save_current_memory: snapshot the user window. -/
def ProcessTable.save_current_memory (t : ProcessTable) (m : Machine) :
    ProcessTable :=
  match t.current_pid with
  | none => t
  | some cp => t.modify cp (fun p => { p with memory := m.window })

/-- ProcessTable::restore_process_memory. -/
def ProcessTable.restore_process_memory (t : ProcessTable) (pid : Nat)
    (m : Machine) : Machine :=
  match t.get pid with
  | some p => if p.memory ≠ [] then { m with window := p.memory } else m
  | none => m

/-- The trap-frame initialization for a first-run process: argc/argv in
a0/a1, everything else zeroed. -/
def injectArgs (tf : TrapFrame) (p : Process) : TrapFrame :=
  { tf with ra := 0, a0 := p.argc, a1 := p.argv_ptr, a2 := 0, a3 := 0,
            a4 := 0, a5 := 0, a6 := 0, a7 := 0, t0 := 0, t1 := 0, t2 := 0,
            t3 := 0, t4 := 0, t5 := 0, t6 := 0 }

/-- ProcessTable::restore_process_registers: write PC to sepc and SP to
sscratch; rewrite the trap frame (and set started) only on first run. -/
def ProcessTable.restore_process_registers (t : ProcessTable) (pid : Nat)
    (m : Machine) (tf : TrapFrame) : ProcessTable × Machine × TrapFrame :=
  match t.get pid with
  | none => (t, m, tf)
  | some p =>
    let m1 := { m with sepc := p.pc, sscratch := p.sp }
    if p.started then (t, m1, tf)
    else (t.modify pid (fun q => { q with started := true }), m1, injectArgs tf p)

/-! ## The scheduler (src/scheduler.rs) -/

/-- The Ready/Running PIDs in table (slot) order, as collected at the
top of Scheduler::schedule. -/
def runnable_pids (t : ProcessTable) : List Nat :=
  ((t.processes.filterMap id).filter (fun p =>
    decide (p.state = ProcessState.Ready ∨ p.state = ProcessState.Running))).map
    (fun p => p.pid)

/-- Scheduler::schedule. -/
def Scheduler.schedule (t : ProcessTable) : Option Nat :=
  let processes := runnable_pids t
  if processes = [] then none
  else
    match t.current_pid with
    | some current_pid =>
      match processes.findIdx? (fun pid => pid = current_pid) with
      | some current_idx =>
        some (processes.getD ((current_idx + 1) % processes.length) 0)
      | none => some (processes.getD 0 0)
    | none => some (processes.getD 0 0)

/-- Scheduler::yield_cpu. -/
def Scheduler.yield_cpu (t : ProcessTable) : ProcessTable :=
  let t1 :=
    match t.current_pid with
    | none => t
    | some cp => t.modify cp (fun p =>
        if p.state = ProcessState.Running then { p with state := ProcessState.Ready }
        else p)
  match Scheduler.schedule t1 with
  | none => t1
  | some next_pid =>
    (t1.set_current next_pid).modify next_pid
      (fun p => { p with state := ProcessState.Running })

/-- Scheduler::block_current. -/
def Scheduler.block_current (t : ProcessTable) : ProcessTable :=
  match t.current_pid with
  | none => t
  | some cp => t.modify cp (fun p => { p with state := ProcessState.Blocked })

/-- Scheduler::unblock. -/
def Scheduler.unblock (t : ProcessTable) (pid : Nat) : ProcessTable :=
  t.modify pid (fun p =>
    if p.state = ProcessState.Blocked then { p with state := ProcessState.Ready }
    else p)

def Scheduler.unblockMany (t : ProcessTable) (pids : List Nat) : ProcessTable :=
  pids.foldl Scheduler.unblock t

/-- ProcessTable::exit_process: close all fds (waking pipe peers via
Scheduler::unblock) and mark the process Exited. -/
def ProcessTable.exit_process (t : ProcessTable) (pt : PipeTable) (pid : Nat)
    (code : Int) : ProcessTable × PipeTable :=
  match t.get pid with
  | none => (t, pt)
  | some p =>
    let r := FdTable.close_all p.fd_table pt
    let t1 := t.modify pid (fun q =>
      Process.exit { q with fd_table := r.1 } code)
    (Scheduler.unblockMany t1 r.2.2, r.2.1)

/-- The save phase of Scheduler::maybe_switch (the block guarded by
current_pid != INVALID_PID). -/
def Scheduler.maybe_switch_save (t : ProcessTable) (m : Machine)
    (tf : TrapFrame) (make_current_ready : Bool) : ProcessTable :=
  match t.current_pid with
  | none => t
  | some current_pid =>
    let ta := t.save_current_registers m tf
    let tb := ta.save_current_memory m
    if make_current_ready then
      tb.modify current_pid (fun p =>
        if p.state = ProcessState.Running then { p with state := ProcessState.Ready }
        else p)
    else tb

/-- Scheduler::maybe_switch.  Returns the process table, machine state
and trap frame after the call together with the switch flag. -/
def Scheduler.maybe_switch (t : ProcessTable) (m : Machine) (tf : TrapFrame) :
    ProcessTable × Machine × TrapFrame × Bool :=
  let decision : Bool × Bool :=
    match t.current_pid with
    | none => (true, false)
    | some current_pid =>
      let state := (t.get current_pid).map (fun p => p.state)
      let has_other_ready := (t.processes.filterMap id).any (fun p =>
        decide (p.pid ≠ current_pid ∧
          (p.state = ProcessState.Ready ∨ p.state = ProcessState.Running)))
      match state with
      | some ProcessState.Blocked => (true, false)
      | some ProcessState.Exited => (true, false)
      | none => (true, false)
      | some ProcessState.Running =>
        if has_other_ready then (true, true) else (false, false)
      | some ProcessState.Ready =>
        if has_other_ready then (true, true) else (false, false)
  if decision.1 = false then (t, m, tf, false)
  else
    let t1 := Scheduler.maybe_switch_save t m tf decision.2
    match Scheduler.schedule t1 with
    | some next_pid =>
      let t2 := t1.set_current next_pid
      let m2 := t2.restore_process_memory next_pid m
      let r := t2.restore_process_registers next_pid m2 tf
      let t3 := r.1.modify next_pid
        (fun p => { p with state := ProcessState.Running })
      (t3, r.2.1, r.2.2, true)
    | none => (t1, m, tf, false)

/-! ## The syscall layer (src/syscall.rs) -/

inductive SysError where
  | NoSys
  | BadFd
  | InvalidUtf8
  | Fault
  | Fs (err : FsError)
  | Fd (err : FdError)
  | Proc (err : SpawnError)
  | Child
  | NoProcess
deriving DecidableEq

def fs_errno : FsError → Int
  | FsError.NotInitialized => -5
  | FsError.NameTooLong => -36
  | FsError.DirectoryFull => -28
  | FsError.NoSpace => -28
  | FsError.NotFound => -2
  | FsError.InvalidEncoding => -22
  | FsError.InvalidPath => -22
  | FsError.DeviceInitFailed _ => -6
  | FsError.NotADirectory => -20
  | FsError.IsFile => -20
  | FsError.AlreadyExists => -17
  | FsError.DirectoryNotEmpty => -39
  | FsError.IsDirectory => -21

def fd_errno : FdError → Int
  | FdError.BadFd => -9
  | FdError.TooManyOpen => -24
  | FdError.NotFound => -2
  | FdError.NotImplemented => -38
  | FdError.WouldBlock => -11
  | FdError.BrokenPipe => -32
  | FdError.Fs err => fs_errno err

def proc_errno : SpawnError → Int
  | SpawnError.TooManyProcesses => -24
  | SpawnError.ProgramNotFound => -2
  | SpawnError.LoadFailed => -5
  | SpawnError.OutOfMemory => -12

/-- The return-code encoding at the end of dispatch. -/
def sysResultCode : Except SysError Nat → Int
  | Except.ok len => (len : Int)
  | Except.error SysError.NoSys => -38
  | Except.error SysError.BadFd => -9
  | Except.error SysError.InvalidUtf8 => -22
  | Except.error SysError.Fault => -14
  | Except.error (SysError.Fs err) => fs_errno err
  | Except.error (SysError.Fd err) => fd_errno err
  | Except.error (SysError.Proc err) => proc_errno err
  | Except.error SysError.Child => -10
  | Except.error SysError.NoProcess => -9

/-- The global mutable state a syscall can touch: the process table, the
pipe table, the mounted filesystem (None before fs::init) and the UART
output stream. -/
structure KState where
  ptable : ProcessTable
  pipes : PipeTable
  fsi : Option TinyFs
  uart_out : List Nat

/-- fs::read_file through the FS_INSTANCE global. -/
def fs_read_file (g : Option TinyFs) (path : List String) :
    Except FsError (List Nat) :=
  match g with
  | none => Except.error FsError.NotInitialized
  | some fs => fs.read_file_contents path

/-- fs::write_file through the FS_INSTANCE global. -/
def fs_write_file (g : Option TinyFs) (path : List String) (data : List Nat) :
    Except FsError TinyFs :=
  match g with
  | none => Except.error FsError.NotInitialized
  | some fs => fs.write_file_contents path data

/-- UartFd::write: UART output is modelled as an append-only stream. -/
def UartFd.write (u : UartFd) (buf : List Nat) (out : List Nat) :
    Except FdError Nat × List Nat :=
  match u.mode with
  | UartMode.Write => (Except.ok buf.length, out ++ buf)
  | UartMode.Read => (Except.error FdError.BadFd, out)

/-- FileFd::write. -/
def FileFd.write (f : FileFd) (buf : List Nat) (g : Option TinyFs) :
    Except FdError Nat × FileFd × Option TinyFs :=
  if f.mode.write = false then (Except.error FdError.BadFd, f, g)
  else if f.mode.append then
    let contents :=
      (match fs_read_file g f.path with
        | Except.ok c => c
        | Except.error _ => []) ++ buf
    match fs_write_file g f.path contents with
    | Except.error e => (Except.error (FdError.Fs e), f, g)
    | Except.ok fs1 =>
      (Except.ok buf.length, { f with pos := contents.length }, some fs1)
  else
    match fs_write_file g f.path buf with
    | Except.error e => (Except.error (FdError.Fs e), f, g)
    | Except.ok fs1 =>
      (Except.ok buf.length, { f with pos := buf.length }, some fs1)

/-- PipeFd::write (the write goes through the global pipe table and may
wake waiting readers). -/
def PipeFd.write (pfd : PipeFd) (buf : List Nat) (pt : PipeTable) :
    Except FdError Nat × PipeTable × List Nat :=
  if pfd.is_read_end then (Except.error FdError.BadFd, pt, [])
  else
    match pt.write pfd.pipe_id buf with
    | Except.error e => (Except.error e, pt, [])
    | Except.ok (n, pt1, wk) => (Except.ok n, pt1, wk)

/-- FileDescriptor::write, dispatching on the descriptor kind.  Returns
the result, the updated descriptor and the updated global state. -/
def FileDescriptor.write (fd : FileDescriptor) (buf : List Nat) (s : KState) :
    Except FdError Nat × FileDescriptor × KState :=
  match fd with
  | FileDescriptor.Uart u =>
    let r := u.write buf s.uart_out
    (r.1, FileDescriptor.Uart u, { s with uart_out := r.2 })
  | FileDescriptor.File f =>
    let r := f.write buf s.fsi
    (r.1, FileDescriptor.File r.2.1, { s with fsi := r.2.2 })
  | FileDescriptor.Pipe pfd =>
    let r := pfd.write buf s.pipes
    (r.1, FileDescriptor.Pipe pfd,
      { s with pipes := r.2.1
               ptable := Scheduler.unblockMany s.ptable r.2.2 })

/-- sys_write (src/syscall.rs line 111).  The user buffer behind the raw
pointer is the byte sequence mem[ptr .. ptr+len]; a null pointer is
address 0.  The retry loop of the source returns on every branch of its
single iteration. -/
def sys_write (s : KState) (mem : Nat → Nat) (fd_num ptr len : Nat) :
    Except SysError Nat × KState :=
  if len = 0 then (Except.ok 0, s)
  else if ptr = 0 then (Except.error SysError.Fault, s)
  else
    let bytes := (List.range len).map (fun i => mem (ptr + i))
    match s.ptable.current_pid with
    | none => (Except.error (SysError.Fd FdError.BadFd), s)
    | some writer_pid =>
      match s.ptable.get writer_pid with
      | none => (Except.error (SysError.Fd FdError.BadFd), s)
      | some proc =>
        match proc.fd_table.get fd_num with
        | Except.error _ => (Except.error (SysError.Fd FdError.BadFd), s)
        | Except.ok fd_entry =>
          let pipe_waiting_on : Option Nat :=
            match fd_entry with
            | FileDescriptor.Pipe pfd => some pfd.pipe_id
            | _ => none
          let r := fd_entry.write bytes s
          let tb := r.2.2.ptable.modify writer_pid (fun p =>
            { p with fd_table := p.fd_table.set_entry fd_num r.2.1 })
          let s1 : KState := { r.2.2 with ptable := tb }
          match r.1 with
          | Except.ok written => (Except.ok written, s1)
          | Except.error FdError.WouldBlock =>
            let pt1 :=
              match pipe_waiting_on with
              | some pipe_id =>
                match s1.pipes.mark_writer_waiting pipe_id writer_pid with
                | Except.ok ptm => ptm
                | Except.error _ => s1.pipes
              | none => s1.pipes
            (Except.error (SysError.Fd FdError.WouldBlock),
              { s1 with pipes := pt1
                        ptable := Scheduler.block_current s1.ptable })
          | Except.error e => (Except.error (SysError.Fd e), s1)

/-- sys_wait (src/syscall.rs line 540).  Returns result, table and the
value written through the status pointer (None when the pointer is null
or nothing was written). -/
def sys_wait (t : ProcessTable) (status_ptr : Nat) :
    Except SysError Nat × ProcessTable × Option Int :=
  match t.current_pid with
  | none => (Except.error SysError.Child, t, none)
  | some current_pid =>
    if t.has_children current_pid = false then
      (Except.error SysError.Child, t, none)
    else
      match t.wait current_pid with
      | (some (child_pid, exit_code), t1) =>
        (Except.ok child_pid, t1,
          if status_ptr = 0 then none else some exit_code)
      | (none, t1) =>
        (Except.error (SysError.Fd FdError.WouldBlock),
          Scheduler.block_current t1, none)

/-- Claim C10: for every fd number (including out-of-range or closed
descriptors) and every pointer value (including null), sys_write with
length 0 returns 0 immediately, without validating the fd or the
pointer and without changing any process, fd-table, pipe, filesystem or
UART state. -/
theorem sys_write_zero_length (s : KState) (mem : Nat → Nat) (fd_num ptr : Nat) :
    sys_write s mem fd_num ptr 0 = (Except.ok 0, s) := rfl

/-! ## The user-window loader (src/process.rs) -/

def USER_IMAGE_BASE : Nat := 0x80400000

def USER_WINDOW_SIZE : Nat := 0x20000

structure SegmentImage where
  dest : Nat
  data : List Nat
  flags : Nat
deriving DecidableEq

structure LoadedProgram where
  entry : Nat
  stack_top : Nat
  segments : List SegmentImage
deriving DecidableEq

inductive LoadError where
  | Fs (err : FsError)
  | Elf
  | OutOfMemory
deriving DecidableEq

/-- ptr::copy_nonoverlapping of a byte slice into the window at the
given offset. -/
def writeBytes (w : List Nat) (off : Nat) (data : List Nat) : List Nat :=
  w.take off ++ data ++ w.drop (off + data.length)

/-- The loop body of load_into_user_window: the saturating subtraction
of the source is Nat subtraction. -/
def load_into_user_window_go (w : List Nat) :
    List SegmentImage → Except LoadError (List Nat)
  | [] => Except.ok w
  | seg :: rest =>
    let offset := seg.dest - USER_IMAGE_BASE
    let endd := offset + seg.data.length
    if endd > USER_WINDOW_SIZE then Except.error LoadError.OutOfMemory
    else load_into_user_window_go (writeBytes w offset seg.data) rest

/-- load_into_user_window (src/process.rs line 104), acting on the
window contents. -/
def load_into_user_window (w : List Nat) (program : LoadedProgram) :
    Except LoadError (List Nat) :=
  load_into_user_window_go w program.segments

/-- The per-segment buffer built by load (src/process.rs lines 59-63):
mem_size zero bytes, the first file_size of which are overwritten with
the file bytes. -/
def mkSegmentData (elfData : List Nat) (file_offset file_size mem_size : Nat) :
    List Nat :=
  if file_size = 0 then List.replicate mem_size 0
  else
    ((elfData.drop file_offset).take file_size) ++
      (List.replicate mem_size 0).drop file_size

def segOff (seg : SegmentImage) : Nat := seg.dest - USER_IMAGE_BASE

def segFits (seg : SegmentImage) : Prop :=
  segOff seg + seg.data.length ≤ USER_WINDOW_SIZE

def outsideSeg (pos : Nat) (seg : SegmentImage) : Prop :=
  pos < segOff seg ∨ segOff seg + seg.data.length ≤ pos

def SegsDisjoint : List SegmentImage → Prop :=
  List.Pairwise (fun a b => segOff a + a.data.length ≤ segOff b ∨
    segOff b + b.data.length ≤ segOff a)

theorem writeBytes_length (w data : List Nat) (off : Nat)
    (h : off + data.length ≤ w.length) :
    (writeBytes w off data).length = w.length := by
  unfold writeBytes
  simp only [List.length_append, List.length_take, List.length_drop]
  omega

theorem writeBytes_getD_mid (w data : List Nat) (off i : Nat)
    (hoff : off + data.length ≤ w.length) (hi : i < data.length) :
    (writeBytes w off data).getD (off + i) 0 = data.getD i 0 := by
  unfold writeBytes
  have ht : (w.take off).length = off := by
    rw [List.length_take]
    omega
  rw [List.getD_eq_getElem?_getD, List.getD_eq_getElem?_getD,
    List.getElem?_append,
    if_pos (by rw [List.length_append, ht]; omega),
    List.getElem?_append_right (by rw [ht]; omega)]
  rw [show off + i - (w.take off).length = i from by rw [ht]; omega]

theorem writeBytes_getD_left (w data : List Nat) (off pos : Nat)
    (hpos : pos < off) (hoff : off ≤ w.length) :
    (writeBytes w off data).getD pos 0 = w.getD pos 0 := by
  unfold writeBytes
  have ht : (w.take off).length = off := by
    rw [List.length_take]
    omega
  rw [List.getD_eq_getElem?_getD, List.getD_eq_getElem?_getD,
    List.getElem?_append,
    if_pos (by rw [List.length_append, ht]; omega),
    List.getElem?_append,
    if_pos (by rw [ht]; omega),
    List.getElem?_take, if_pos hpos]

theorem writeBytes_getD_right (w data : List Nat) (off pos : Nat)
    (hoff : off + data.length ≤ w.length) (hpos : off + data.length ≤ pos) :
    (writeBytes w off data).getD pos 0 = w.getD pos 0 := by
  unfold writeBytes
  have ht : (w.take off).length = off := by
    rw [List.length_take]
    omega
  rw [List.getD_eq_getElem?_getD, List.getD_eq_getElem?_getD,
    List.getElem?_append_right (by rw [List.length_append, ht]; omega),
    List.getElem?_drop]
  rw [show off + data.length + (pos - (w.take off ++ data).length) = pos from by
    rw [List.length_append, ht]; omega]

theorem load_go_ok (segs : List SegmentImage) : ∀ (w : List Nat),
    w.length = USER_WINDOW_SIZE →
    (∀ seg ∈ segs, segFits seg) →
    ∃ w2, load_into_user_window_go w segs = Except.ok w2 ∧
      w2.length = USER_WINDOW_SIZE ∧
      (∀ pos, (∀ seg ∈ segs, outsideSeg pos seg) →
        w2.getD pos 0 = w.getD pos 0) ∧
      (SegsDisjoint segs →
        ∀ seg ∈ segs, ∀ i, i < seg.data.length →
          w2.getD (segOff seg + i) 0 = seg.data.getD i 0) := by
  induction segs with
  | nil =>
    intro w hw _
    exact ⟨w, rfl, hw, fun _ _ => rfl, fun _ seg hseg => absurd hseg (by simp)⟩
  | cons seg rest ih =>
    intro w hw hfits
    have hfit := hfits seg (List.mem_cons_self seg rest)
    unfold segFits segOff at hfit
    rw [load_into_user_window_go]
    rw [if_neg (show ¬ seg.dest - USER_IMAGE_BASE + seg.data.length > USER_WINDOW_SIZE by omega)]
    have hfit2 : segOff seg + seg.data.length ≤ USER_WINDOW_SIZE := by
      unfold segOff
      omega
    have hmem : segOff seg + seg.data.length ≤ w.length := by omega
    have hw1 : (writeBytes w (segOff seg) seg.data).length = USER_WINDOW_SIZE := by
      rw [writeBytes_length w seg.data (segOff seg) hmem, hw]
    obtain ⟨w2, hgo, hlen2, huntouched, hwritten⟩ :=
      ih (writeBytes w (segOff seg) seg.data) hw1
        (fun s hs => hfits s (List.mem_cons_of_mem seg hs))
    refine ⟨w2, hgo, hlen2, ?_, ?_⟩
    · intro pos hout
      have hrest : ∀ s ∈ rest, outsideSeg pos s :=
        fun s hs => hout s (List.mem_cons_of_mem seg hs)
      rw [huntouched pos hrest]
      rcases hout seg (List.mem_cons_self seg rest) with hl | hr
      · exact writeBytes_getD_left w seg.data (segOff seg) pos hl (by omega)
      · exact writeBytes_getD_right w seg.data (segOff seg) pos hmem hr
    · intro hdisj s hs i hi
      unfold SegsDisjoint at hdisj
      rw [List.pairwise_cons] at hdisj
      rw [List.mem_cons] at hs
      rcases hs with hs | hs
      · -- the head segment: the tail segments leave its range alone
        rw [hs]
        have hout : ∀ s2 ∈ rest, outsideSeg (segOff seg + i) s2 := by
          intro s2 hs2
          rcases hdisj.1 s2 hs2 with hd | hd
          · exact Or.inl (by rw [hs] at hi; omega)
          · exact Or.inr (by rw [hs] at hi; omega)
        rw [huntouched _ hout]
        rw [hs] at hi
        exact writeBytes_getD_mid w seg.data (segOff seg) i hmem hi
      · exact hwritten hdisj.2 s hs i hi

theorem load_go_error_iff (segs : List SegmentImage) : ∀ (w : List Nat),
    load_into_user_window_go w segs = Except.error LoadError.OutOfMemory ↔
      ∃ seg ∈ segs, ¬ segFits seg := by
  induction segs with
  | nil =>
    intro w
    constructor
    · intro h
      exact absurd h (by simp [load_into_user_window_go])
    · rintro ⟨seg, hseg, -⟩
      exact absurd hseg (by simp)
  | cons seg rest ih =>
    intro w
    rw [load_into_user_window_go]
    by_cases hfit : segFits seg
    · unfold segFits segOff at hfit
      rw [if_neg (show ¬ seg.dest - USER_IMAGE_BASE + seg.data.length > USER_WINDOW_SIZE by omega)]
      rw [ih]
      constructor
      · rintro ⟨s, hs, hns⟩
        exact ⟨s, List.mem_cons_of_mem seg hs, hns⟩
      · rintro ⟨s, hs, hns⟩
        rw [List.mem_cons] at hs
        rcases hs with hs | hs
        · rw [hs] at hns
          exact absurd (by unfold segFits segOff; omega) hns
        · exact ⟨s, hs, hns⟩
    · unfold segFits segOff at hfit
      rw [if_pos (show seg.dest - USER_IMAGE_BASE + seg.data.length > USER_WINDOW_SIZE by omega)]
      constructor
      · intro _
        exact ⟨seg, List.mem_cons_self seg rest, by unfold segFits segOff; omega⟩
      · intro _
        rfl

theorem mkSegmentData_length (e : List Nat) (off fs ms : Nat)
    (hle : fs ≤ ms) (hbound : off + fs ≤ e.length) :
    (mkSegmentData e off fs ms).length = ms := by
  unfold mkSegmentData
  by_cases h0 : fs = 0
  · rw [if_pos h0, List.length_replicate]
  · rw [if_neg h0]
    simp only [List.length_append, List.length_take, List.length_drop,
      List.length_replicate]
    omega

theorem mkSegmentData_bss (e : List Nat) (off fs ms i : Nat)
    (hle : fs ≤ ms) (hbound : off + fs ≤ e.length)
    (hi : fs ≤ i) (hi2 : i < ms) :
    (mkSegmentData e off fs ms).getD i 0 = 0 := by
  unfold mkSegmentData
  by_cases h0 : fs = 0
  · rw [if_pos h0, List.getD_eq_getElem?_getD, List.getElem?_replicate,
      if_pos hi2]
    rfl
  · rw [if_neg h0]
    have hlen : ((e.drop off).take fs).length = fs := by
      simp only [List.length_take, List.length_drop]
      omega
    rw [List.getD_eq_getElem?_getD, List.getElem?_append_right (by omega), hlen,
      List.getElem?_drop, List.getElem?_replicate, if_pos (by omega)]
    rfl

/-- A window with a nonzero byte at position 100, as left by a previous
program. -/
def wC9 : List Nat := (List.replicate USER_WINDOW_SIZE 0).set 100 7

/-- A one-segment program whose only byte lands at window offset 0. -/
def progC9 : LoadedProgram :=
  { entry := USER_IMAGE_BASE, stack_top := USER_IMAGE_BASE + USER_WINDOW_SIZE,
    segments := [{ dest := USER_IMAGE_BASE, data := [5], flags := 5 }] }

/-- Claim C9, counterexample to "the user window is zeroed before the
load": loading progC9 into a window holding the byte 7 at position 100
succeeds and leaves that stale byte in place, since
load_into_user_window only copies segment bytes and never clears the
rest of the window.  Position 100 lies outside the single segment, so
under the claim it would have to read 0 afterwards. -/
theorem load_window_not_zeroed_counterexample :
    load_into_user_window wC9 progC9 = Except.ok (writeBytes wC9 0 [5]) ∧
      (writeBytes wC9 0 [5]).getD 100 0 = 7 ∧
      (∀ seg ∈ progC9.segments, outsideSeg 100 seg) := by
  refine ⟨rfl, rfl, ?_⟩
  intro seg hseg
  simp only [progC9, List.mem_singleton] at hseg
  rw [hseg]
  exact Or.inr (by unfold segOff USER_IMAGE_BASE; decide)

/-- Claim C9 (amended): load_into_user_window fails with OutOfMemory
exactly when some segment extends past the 128 KiB window; when every
segment fits it succeeds, copies each segment's bytes to window offset
dest - USER_IMAGE_BASE, and (for pairwise disjoint segments) leaves
every bss byte of a segment whose buffer was built by load's
zero-padding (mkSegmentData) equal to zero.  Positions outside every
segment keep their previous contents: the window is not zeroed before
the load, so bss zeros come from the zero-padded segment buffers, not
from the window. -/
theorem load_into_user_window_matches_spec
    (w : List Nat) (program : LoadedProgram)
    (hw : w.length = USER_WINDOW_SIZE) :
    (load_into_user_window w program = Except.error LoadError.OutOfMemory ↔
      ∃ seg ∈ program.segments, ¬ segFits seg) ∧
    ((∀ seg ∈ program.segments, segFits seg) →
      ∃ w2, load_into_user_window w program = Except.ok w2 ∧
        w2.length = USER_WINDOW_SIZE ∧
        (∀ pos, (∀ seg ∈ program.segments, outsideSeg pos seg) →
          w2.getD pos 0 = w.getD pos 0) ∧
        (SegsDisjoint program.segments →
          (∀ seg ∈ program.segments, ∀ i, i < seg.data.length →
            w2.getD (segOff seg + i) 0 = seg.data.getD i 0) ∧
          (∀ seg ∈ program.segments, ∀ e off fsz msz,
            seg.data = mkSegmentData e off fsz msz → fsz ≤ msz →
            off + fsz ≤ e.length →
            ∀ i, fsz ≤ i → i < msz →
              w2.getD (segOff seg + i) 0 = 0))) := by
  constructor
  · exact load_go_error_iff program.segments w
  · intro hfits
    obtain ⟨w2, hgo, hlen, huntouched, hwritten⟩ :=
      load_go_ok program.segments w hw hfits
    refine ⟨w2, hgo, hlen, huntouched, ?_⟩
    intro hdisj
    refine ⟨hwritten hdisj, ?_⟩
    intro seg hseg e off fsz msz hdata hle hbound i hfs hms
    have hilen : i < seg.data.length := by
      rw [hdata, mkSegmentData_length e off fsz msz hle hbound]
      exact hms
    rw [hwritten hdisj seg hseg i hilen, hdata]
    exact mkSegmentData_bss e off fsz msz i hle hbound hfs hms

/-- Claim C9 witness: the amended theorem applied to a freshly zeroed
window and the concrete one-segment program. -/
theorem load_into_user_window_matches_spec_witness :
    (load_into_user_window (List.replicate USER_WINDOW_SIZE 0) progC9 =
        Except.error LoadError.OutOfMemory ↔
      ∃ seg ∈ progC9.segments, ¬ segFits seg) :=
  (load_into_user_window_matches_spec (List.replicate USER_WINDOW_SIZE 0) progC9
    (by simp)).1

/-! ## Claim C8: the scheduling order -/

/-- The slot-order reading of schedule: the runnable PID one step after
the current PID in the runnable list taken in process-table slot order,
wrapping around (a rotation); the first runnable PID in slot order when
there is no current PID or the current PID is not runnable. -/
def scheduleSlotOrder (t : ProcessTable) : Option Nat :=
  let rs := runnable_pids t
  match t.current_pid with
  | some c =>
    match rs.findIdx? (fun pid => pid = c) with
    | some i => (rs.rotate (i + 1)).head?
    | none => rs.head?
  | none => rs.head?

/-- The claim's numeric reading of schedule: the smallest runnable PID
strictly greater than the current PID, wrapping to the smallest
runnable PID; the smallest runnable PID when there is no current PID or
the current PID is not runnable. -/
def schedulePidOrderSpec (t : ProcessTable) : Option Nat :=
  let rs := runnable_pids t
  match t.current_pid with
  | some c =>
    if c ∈ rs then
      match (rs.filter (fun p => c < p)).min? with
      | some next => some next
      | none => rs.min?
    else rs.min?
  | none => rs.min?

theorem head?_eq_some_getD (l : List Nat) (h : l ≠ []) :
    l.head? = some (l.getD 0 0) := by
  have hlen : 0 < l.length := List.length_pos.mpr h
  rw [List.head?_eq_getElem?, List.getElem?_eq_getElem hlen,
    List.getD_eq_getElem l 0 hlen]

theorem rotate_head?_eq_some_getD (l : List Nat) (h : l ≠ []) (k : Nat) :
    (l.rotate k).head? = some (l.getD (k % l.length) 0) := by
  have hlen : 0 < l.length := List.length_pos.mpr h
  have hmod : k % l.length < l.length := Nat.mod_lt _ hlen
  rw [List.head?_eq_getElem?, List.getElem?_rotate hlen, Nat.zero_add,
    List.getElem?_eq_getElem hmod, List.getD_eq_getElem l 0 hmod]

/-- Claim C8 (amended): Scheduler::schedule walks the Ready/Running
PIDs in process-table slot order, not in numeric PID order: it returns
the runnable PID one step after the current PID in that list (wrapping
around), the first runnable PID in slot order when there is no current
PID or the current PID is not runnable, and None exactly when no
process is Ready or Running. -/
theorem scheduler_schedule_matches_spec (t : ProcessTable) :
    Scheduler.schedule t = scheduleSlotOrder t ∧
    (Scheduler.schedule t = none ↔ runnable_pids t = []) := by
  unfold Scheduler.schedule scheduleSlotOrder
  dsimp only
  by_cases hrs : runnable_pids t = []
  · rw [if_pos hrs, hrs]
    refine ⟨?_, by simp⟩
    cases t.current_pid <;> rfl
  · rw [if_neg hrs]
    refine ⟨?_, ?_, fun h => absurd h hrs⟩
    · cases hc : t.current_pid with
      | none =>
        dsimp only
        exact (head?_eq_some_getD _ hrs).symm
      | some c =>
        dsimp only
        cases hidx : (runnable_pids t).findIdx? (fun pid => pid = c) with
        | none =>
          dsimp only
          exact (head?_eq_some_getD _ hrs).symm
        | some i =>
          dsimp only
          exact (rotate_head?_eq_some_getD _ hrs (i + 1)).symm
    · intro h
      exfalso
      cases hc : t.current_pid with
      | none =>
        rw [hc] at h
        dsimp only at h
        exact Option.noConfusion h
      | some c =>
        rw [hc] at h
        dsimp only at h
        cases hidx : (runnable_pids t).findIdx? (fun pid => pid = c) with
        | none =>
          rw [hidx] at h
          dsimp only at h
          exact Option.noConfusion h
        | some i =>
          rw [hidx] at h
          dsimp only at h
          exact Option.noConfusion h

/-- A minimal Ready process used by concrete tables below. -/
def baseProc (pid : Nat) : Process :=
  { pid := pid, parent_pid := none, state := ProcessState.Ready,
    exit_code := 0, entry := 0, stack_top := 0, pc := 0, sp := 0,
    regs := List.replicate 31 0, path := [], args := [],
    fd_table := FdTable.new, memory := [], argc := 0, started := true,
    argv_ptr := 0 }

/-- A process table whose slot order (5, 2, 7) differs from PID order,
with PID 2 current; such tables arise when a freed slot is reused by a
later (higher) PID. -/
def tC8 : ProcessTable :=
  ⟨[some (baseProc 5), some (baseProc 2), some (baseProc 7)], some 2, 8⟩

/-- Claim C8 counterexample: with runnable slots holding PIDs 5, 2, 7
(in slot order) and PID 2 current, schedule returns PID 7, the next
runnable in slot order, while the claim's numeric PID order demands 5,
the smallest runnable PID greater than 2. -/
theorem schedule_numeric_order_counterexample :
    Scheduler.schedule tC8 = some 7 ∧ schedulePidOrderSpec tC8 = some 5 ∧
      Scheduler.schedule tC8 ≠ schedulePidOrderSpec tC8 := by
  refine ⟨by decide, by decide, by decide⟩

/-! ## Claim C7: sys_wait -/

theorem findIdx?_some_getD {α : Type} (p : α → Bool) (d : α) :
    ∀ (l : List α) (j i : Nat), List.findIdx? p l j = some i →
      j ≤ i ∧ i - j < l.length ∧ p (l.getD (i - j) d) = true := by
  intro l
  induction l with
  | nil =>
    intro j i h
    rw [List.findIdx?_nil] at h
    exact Option.noConfusion h
  | cons x xs ih =>
    intro j i h
    rw [List.findIdx?_cons] at h
    by_cases hp : p x = true
    · rw [if_pos hp] at h
      injection h with h2
      subst h2
      refine ⟨Nat.le_refl _, ?_, ?_⟩
      · simp only [Nat.sub_self, List.length_cons]
        omega
      · rw [Nat.sub_self, List.getD_cons_zero]
        exact hp
    · rw [if_neg hp] at h
      obtain ⟨hji, hlt, hpred⟩ := ih (j + 1) i h
      refine ⟨by omega, by simp only [List.length_cons]; omega, ?_⟩
      rw [show i - j = (i - (j + 1)) + 1 from by omega, List.getD_cons_succ]
      exact hpred

theorem find?_updateProcGo_self (f : Process → Process) (pid : Nat)
    (hf : ∀ p, (f p).pid = p.pid) :
    ∀ l : List (Option Process),
      ((updateProcGo f pid l).filterMap id).find? (fun p => p.pid = pid) =
        ((l.filterMap id).find? (fun p => p.pid = pid)).map f := by
  intro l
  induction l with
  | nil => rfl
  | cons s rest ih =>
    cases s with
    | none =>
      simp only [updateProcGo, List.filterMap_cons, id]
      exact ih
    | some p =>
      simp only [updateProcGo]
      by_cases hp : p.pid = pid
      · rw [if_pos hp]
        simp only [List.filterMap_cons, id]
        rw [List.find?_cons_of_pos _ (by simp [hf, hp]),
          List.find?_cons_of_pos _ (by simp [hp])]
        rfl
      · rw [if_neg hp]
        simp only [List.filterMap_cons, id]
        rw [List.find?_cons_of_neg _ (by simp [hf, hp]),
          List.find?_cons_of_neg _ (by simp [hp])]
        exact ih

/-- Modifying the process with a PID rewrites exactly the entry that
ProcessTable.get returns for that PID: both walk the live processes in
slot order and act on the first one carrying the PID. -/
theorem ProcessTable.get_modify_self (t : ProcessTable) (pid : Nat)
    (f : Process → Process) (hf : ∀ p, (f p).pid = p.pid) :
    (t.modify pid f).get pid = (t.get pid).map f := by
  unfold ProcessTable.get ProcessTable.modify
  exact find?_updateProcGo_self f pid hf t.processes

/-- Claim C7: sys_wait called by process cur with a non-null status
pointer returns ECHILD (-10) leaving the state alone when cur has no
children; blocks the caller and returns EAGAIN (-11) when cur has
children but none has exited; and when cur has an Exited child it
returns that child's PID, reports the child's exit code through the
status pointer and frees the child's process-table slot. -/
theorem sys_wait_matches_spec (t : ProcessTable) (status_ptr cur : Nat)
    (hcur : t.current_pid = some cur) (hptr : ¬ status_ptr = 0) :
    (t.has_children cur = false →
      sys_wait t status_ptr = (Except.error SysError.Child, t, none) ∧
      sysResultCode (sys_wait t status_ptr).1 = -10) ∧
    (t.has_children cur = true →
      ((∀ p ∈ t.processes.filterMap id, p.parent_pid = some cur → ¬ p.has_exited) →
        sys_wait t status_ptr =
          (Except.error (SysError.Fd FdError.WouldBlock),
            Scheduler.block_current t, none) ∧
        sysResultCode (sys_wait t status_ptr).1 = -11 ∧
        (∀ pcur, t.get cur = some pcur →
          (Scheduler.block_current t).get cur =
            some { pcur with state := ProcessState.Blocked })) ∧
      ((∃ p ∈ t.processes.filterMap id, p.parent_pid = some cur ∧ p.has_exited) →
        ∃ (child : Process) (slot : Nat),
          (t.processes.getD slot none).map (fun pr => pr.pid) = some child.pid ∧
          child.parent_pid = some cur ∧ child.has_exited ∧
          sys_wait t status_ptr =
            (Except.ok child.pid,
              { t with processes := t.processes.set slot none },
              some child.exit_code))) := by
  refine ⟨?_, ?_⟩
  · intro hnc
    have h : sys_wait t status_ptr = (Except.error SysError.Child, t, none) := by
      unfold sys_wait
      rw [hcur]
      dsimp only
      rw [hnc]
      rw [if_pos rfl]
    exact ⟨h, by rw [h]; rfl⟩
  · intro hc
    refine ⟨?_, ?_⟩
    · intro hnone
      have hfi : t.processes.findIdx? (fun s =>
          match s with
          | some p => decide (p.parent_pid = some cur ∧ p.has_exited)
          | none => false) = none := by
        rw [List.findIdx?_eq_none_iff]
        intro x hx
        cases x with
        | none => rfl
        | some p =>
          dsimp only
          rw [decide_eq_false_iff_not]
          rintro ⟨hpar, hex⟩
          exact hnone p (List.mem_filterMap.mpr ⟨some p, hx, rfl⟩) hpar hex
      have hwait : t.wait cur = (none, t) := by
        unfold ProcessTable.wait
        rw [hfi]
      have h : sys_wait t status_ptr =
          (Except.error (SysError.Fd FdError.WouldBlock),
            Scheduler.block_current t, none) := by
        unfold sys_wait
        rw [hcur]
        dsimp only
        rw [if_neg (by simp [hc]), hwait]
      refine ⟨h, by rw [h]; rfl, ?_⟩
      intro pcur hget
      unfold Scheduler.block_current
      rw [hcur]
      dsimp only
      rw [ProcessTable.get_modify_self t cur
        (fun p => { p with state := ProcessState.Blocked }) (fun p => rfl), hget]
      rfl
    · rintro ⟨p0, hp0mem, hp0par, hp0ex⟩
      have hsome : some p0 ∈ t.processes := by
        obtain ⟨a, ha, hae⟩ := List.mem_filterMap.mp hp0mem
        simp only [id] at hae
        rwa [hae] at ha
      cases hfi : t.processes.findIdx? (fun s =>
          match s with
          | some p => decide (p.parent_pid = some cur ∧ p.has_exited)
          | none => false) with
      | none =>
        exfalso
        rw [List.findIdx?_eq_none_iff] at hfi
        have hx := hfi (some p0) hsome
        dsimp only at hx
        rw [decide_eq_false_iff_not] at hx
        exact hx ⟨hp0par, hp0ex⟩
      | some i =>
        obtain ⟨-, hlt, hpred⟩ := findIdx?_some_getD _ none t.processes 0 i hfi
        rw [Nat.sub_zero] at hlt hpred
        cases hslot : t.processes.getD i none with
        | none =>
          rw [hslot] at hpred
          exact absurd hpred (by simp)
        | some child =>
          rw [hslot] at hpred
          dsimp only at hpred
          have hchild := of_decide_eq_true hpred
          have hmemc : some child ∈ t.processes := by
            rw [List.getD_eq_getElem t.processes none hlt] at hslot
            exact hslot ▸ List.getElem_mem hlt
          cases hfi2 : t.processes.findIdx? (fun s =>
              (s.map (fun pr => pr.pid)) == some child.pid) with
          | none =>
            exfalso
            rw [List.findIdx?_eq_none_iff] at hfi2
            have h2 := hfi2 (some child) hmemc
            simp at h2
          | some slot =>
            obtain ⟨-, hlt2, hpred2⟩ :=
              findIdx?_some_getD _ none t.processes 0 slot hfi2
            rw [Nat.sub_zero] at hlt2 hpred2
            have hwait : t.wait cur = (some (child.pid, child.exit_code),
                { t with processes := t.processes.set slot none }) := by
              unfold ProcessTable.wait
              rw [hfi]
              dsimp only
              rw [hslot]
              dsimp only
              rw [hfi2]
            refine ⟨child, slot, eq_of_beq hpred2, hchild.1, hchild.2, ?_⟩
            unfold sys_wait
            rw [hcur]
            dsimp only
            rw [if_neg (by simp [hc]), hwait]
            dsimp only
            rw [if_neg hptr, hcur]

/-- The parent process for the wait scenario: PID 1, Running. -/
def procC7 : Process := { baseProc 1 with state := ProcessState.Running }

/-- An exited child of PID 1 with exit code 7. -/
def childC7 : Process :=
  { baseProc 2 with
      parent_pid := some 1
      state := ProcessState.Exited
      exit_code := 7 }

/-- A table where PID 1 (current) has the exited child PID 2. -/
def tC7 : ProcessTable := ⟨[some procC7, some childC7], some 1, 3⟩

/-- Claim C7 witness: reaping the exited child PID 2 (exit code 7) of
the current process PID 1. -/
theorem sys_wait_matches_spec_witness :
    ∃ (child : Process) (slot : Nat),
      (tC7.processes.getD slot none).map (fun pr => pr.pid) = some child.pid ∧
      child.parent_pid = some 1 ∧ child.has_exited ∧
      sys_wait tC7 100 =
        (Except.ok child.pid,
          { tC7 with processes := tC7.processes.set slot none },
          some child.exit_code) :=
  ((sys_wait_matches_spec tC7 100 1 rfl (by decide)).2 (by decide)).2 (by decide)

/-! ## Claim C1: what a context switch saves and restores -/

theorem find?_updateProcGo_other (f : Process → Process) (pid1 pid2 : Nat)
    (hf : ∀ p, (f p).pid = p.pid) (hne : pid1 ≠ pid2) :
    ∀ l : List (Option Process),
      ((updateProcGo f pid2 l).filterMap id).find? (fun p => p.pid = pid1) =
        (l.filterMap id).find? (fun p => p.pid = pid1) := by
  intro l
  induction l with
  | nil => rfl
  | cons s rest ih =>
    cases s with
    | none =>
      simp only [updateProcGo, List.filterMap_cons, id]
      exact ih
    | some p =>
      simp only [updateProcGo]
      by_cases hp : p.pid = pid2
      · rw [if_pos hp]
        simp only [List.filterMap_cons, id]
        rw [List.find?_cons_of_neg _ (by simp [hf, hp]; omega),
          List.find?_cons_of_neg _ (by simp [hp]; omega)]
      · rw [if_neg hp]
        simp only [List.filterMap_cons, id]
        by_cases hp1 : p.pid = pid1
        · rw [List.find?_cons_of_pos _ (by simp [hp1]),
            List.find?_cons_of_pos _ (by simp [hp1])]
        · rw [List.find?_cons_of_neg _ (by simp [hp1]),
            List.find?_cons_of_neg _ (by simp [hp1])]
          exact ih

/-- Modifying one PID leaves what get returns for any other PID
unchanged. -/
theorem ProcessTable.get_modify_other (t : ProcessTable) (pid1 pid2 : Nat)
    (f : Process → Process) (hf : ∀ p, (f p).pid = p.pid) (hne : pid1 ≠ pid2) :
    (t.modify pid2 f).get pid1 = t.get pid1 := by
  unfold ProcessTable.get ProcessTable.modify
  exact find?_updateProcGo_other f pid1 pid2 hf hne t.processes

theorem restore_mem_eq (t2 : ProcessTable) (pid : Nat) (m : Machine)
    (pn : Process) (h : t2.get pid = some pn) :
    t2.restore_process_memory pid m =
      { m with window := if pn.memory = [] then m.window else pn.memory } := by
  unfold ProcessTable.restore_process_memory
  rw [h]
  dsimp only
  by_cases hm : pn.memory = []
  · rw [if_neg (by simp [hm]), if_pos hm]
  · rw [if_pos hm, if_neg hm]

theorem restore_regs_eq (t2 : ProcessTable) (pid : Nat) (m : Machine)
    (tf : TrapFrame) (pn : Process) (h : t2.get pid = some pn) :
    t2.restore_process_registers pid m tf =
      ((if pn.started then t2
        else t2.modify pid (fun q => { q with started := true })),
       { m with sepc := pn.pc, sscratch := pn.sp },
       (if pn.started then tf else injectArgs tf pn)) := by
  unfold ProcessTable.restore_process_registers
  rw [h]
  dsimp only
  by_cases hst : pn.started = true
  · rw [if_pos hst, if_pos hst, if_pos hst]
  · rw [if_neg hst, if_neg hst, if_neg hst]

/-- Claim C1 (amended): when maybe_switch switches away from a current
Running process c (some other process being runnable), the PCB of c
afterwards has its PC from the sepc CSR, its SP from the sscratch CSR
and its snapshot from the user window, while its general-purpose
register list is left exactly as it was: save_current_registers ignores
its trap-frame argument, so the trap-frame register file is never
copied into the PCB.  The next process pn has its PC/SP written to the
CSRs and its snapshot restored into the window (kept only when its
snapshot is empty), is marked Running and made current; the trap frame
is rewritten (with argc/argv injected) only when pn has not started
yet, otherwise the outgoing trap frame is handed to it unchanged. -/
theorem maybe_switch_matches_spec
    (t : ProcessTable) (m : Machine) (tf : TrapFrame) (c next : Nat)
    (p pn : Process)
    (hcur : t.current_pid = some c)
    (hget : t.get c = some p)
    (hrun : p.state = ProcessState.Running)
    (hother : (t.processes.filterMap id).any (fun q =>
      decide (q.pid ≠ c ∧ (q.state = ProcessState.Ready ∨
        q.state = ProcessState.Running))) = true)
    (hsched : Scheduler.schedule (Scheduler.maybe_switch_save t m tf true) =
      some next)
    (hgetn : (Scheduler.maybe_switch_save t m tf true).get next = some pn)
    (hne : next ≠ c) :
    ∃ t3,
      Scheduler.maybe_switch t m tf =
        (t3,
          { sepc := pn.pc, sscratch := pn.sp,
            window := if pn.memory = [] then m.window else pn.memory },
          (if pn.started then tf else injectArgs tf pn),
          true) ∧
      t3.get c = some { p with
        pc := m.sepc
        sp := m.sscratch
        memory := m.window
        state := ProcessState.Ready } ∧
      t3.get next = some { pn with
        started := true
        state := ProcessState.Running } ∧
      t3.current_pid = some next := by
  have hsr : t.save_current_registers m tf =
      t.modify c (fun q => { q with pc := m.sepc, sp := m.sscratch }) := by
    unfold ProcessTable.save_current_registers
    rw [hcur]
  have hsm : (t.modify c (fun q =>
        { q with pc := m.sepc, sp := m.sscratch })).save_current_memory m =
      (t.modify c (fun q => { q with pc := m.sepc, sp := m.sscratch })).modify c
        (fun q => { q with memory := m.window }) := by
    unfold ProcessTable.save_current_memory
    rw [show (t.modify c (fun q =>
      { q with pc := m.sepc, sp := m.sscratch })).current_pid = some c from hcur]
  have hsave : Scheduler.maybe_switch_save t m tf true =
      ((t.modify c (fun q => { q with pc := m.sepc, sp := m.sscratch })).modify c
        (fun q => { q with memory := m.window })).modify c
        (fun q => if q.state = ProcessState.Running
          then { q with state := ProcessState.Ready } else q) := by
    unfold Scheduler.maybe_switch_save
    rw [hcur]
    dsimp only
    rw [hsr, hsm, if_pos rfl]
  have hfS : ∀ q : Process, ((fun q => if q.state = ProcessState.Running
      then { q with state := ProcessState.Ready } else q) q).pid = q.pid := by
    intro q
    by_cases hq : q.state = ProcessState.Running <;> simp [hq]
  have ht1getc : (Scheduler.maybe_switch_save t m tf true).get c =
      some { p with
        pc := m.sepc
        sp := m.sscratch
        memory := m.window
        state := ProcessState.Ready } := by
    rw [hsave,
      ProcessTable.get_modify_self _ c _ hfS,
      ProcessTable.get_modify_self _ c (fun q => { q with memory := m.window })
        (fun q => rfl),
      ProcessTable.get_modify_self _ c
        (fun q => { q with pc := m.sepc, sp := m.sscratch }) (fun q => rfl),
      hget]
    dsimp only [Option.map]
    rw [if_pos hrun]
  have hgetn2 : ((Scheduler.maybe_switch_save t m tf true).set_current
      next).get next = some pn := hgetn
  unfold Scheduler.maybe_switch
  dsimp only
  rw [hcur]
  dsimp only
  rw [hget]
  dsimp only [Option.map]
  rw [hrun]
  dsimp only
  rw [hother, if_pos rfl]
  dsimp only
  rw [if_neg (by simp)]
  rw [hsched]
  dsimp only
  rw [restore_mem_eq _ next m pn hgetn2,
    restore_regs_eq _ next _ tf pn hgetn2]
  dsimp only
  refine ⟨_, rfl, ?_, ?_, ?_⟩
  · by_cases hst : pn.started = true
    · rw [if_pos hst,
        ProcessTable.get_modify_other _ c next
          (fun p => { p with state := ProcessState.Running })
          (fun q => rfl) (Ne.symm hne)]
      exact ht1getc
    · rw [if_neg hst,
        ProcessTable.get_modify_other _ c next
          (fun p => { p with state := ProcessState.Running })
          (fun q => rfl) (Ne.symm hne),
        ProcessTable.get_modify_other _ c next
          (fun q => { q with started := true })
          (fun q => rfl) (Ne.symm hne)]
      exact ht1getc
  · by_cases hst : pn.started = true
    · rw [if_pos hst,
        ProcessTable.get_modify_self _ next
          (fun p => { p with state := ProcessState.Running })
          (fun q => rfl), hgetn2]
      dsimp only [Option.map]
      rw [hst]
    · rw [if_neg hst,
        ProcessTable.get_modify_self _ next
          (fun p => { p with state := ProcessState.Running })
          (fun q => rfl),
        ProcessTable.get_modify_self _ next
          (fun q => { q with started := true })
          (fun q => rfl), hgetn2]
      rfl
  · by_cases hst : pn.started = true
    · rw [if_pos hst]
      rfl
    · rw [if_neg hst]
      rfl

/-- The Running current process (PID 1) of the switch scenario; its
register list is all zeroes and is never touched by the switch. -/
def pC1 : Process := { baseProc 1 with state := ProcessState.Running }

/-- The Ready, already-started process (PID 2) the switch hands the CPU
to. -/
def qC1 : Process := baseProc 2

/-- A two-process table with PID 1 current and Running, PID 2 Ready. -/
def tC1 : ProcessTable := ⟨[some pC1, some qC1], some 1, 3⟩

/-- Machine state at the trap: distinctive CSR and window values. -/
def mC1 : Machine := { sepc := 77, sscratch := 88, window := [1, 2, 3] }

/-- A trap frame carrying the distinctive value 42 in register a2. -/
def tfC1 : TrapFrame :=
  { ra := 0, t0 := 0, t1 := 0, t2 := 0, t3 := 0, t4 := 0, t5 := 0, t6 := 0,
    a0 := 0, a1 := 0, a2 := 42, a3 := 0, a4 := 0, a5 := 0, a6 := 0, a7 := 0 }

/-- Claim C1 counterexample: maybe_switch switches away from PID 1 while
its trap frame holds 42 in a2, yet the PCB of PID 1 afterwards still has
the all-zero register list it was created with — the "full trap-frame
general-purpose register file" is never saved (and symmetrically never
restored), since save_current_registers ignores its trap-frame
argument.  Only the PC and SP reach the PCB. -/
theorem maybe_switch_regs_counterexample :
    ∃ t3 m2 tf2,
      Scheduler.maybe_switch tC1 mC1 tfC1 = (t3, m2, tf2, true) ∧
      (∃ q, t3.get 1 = some q ∧ q.pc = 77 ∧ q.sp = 88 ∧
        q.regs = List.replicate 31 0 ∧ ¬ 42 ∈ q.regs) ∧
      tfC1.a2 = 42 := by
  refine ⟨_, _, _, rfl, ⟨_, rfl, rfl, rfl, rfl, by decide⟩, rfl⟩

/-- Claim C1 witness: the amended switch theorem applied to the concrete
two-process table. -/
theorem maybe_switch_matches_spec_witness :
    ∃ t3,
      Scheduler.maybe_switch tC1 mC1 tfC1 =
        (t3,
          { sepc := qC1.pc, sscratch := qC1.sp,
            window := if qC1.memory = [] then mC1.window else qC1.memory },
          (if qC1.started then tfC1 else injectArgs tfC1 qC1),
          true) ∧
      t3.get 1 = some { pC1 with
        pc := mC1.sepc
        sp := mC1.sscratch
        memory := mC1.window
        state := ProcessState.Ready } ∧
      t3.get 2 = some { qC1 with
        started := true
        state := ProcessState.Running } ∧
      t3.current_pid = some 2 :=
  maybe_switch_matches_spec tC1 mC1 tfC1 1 2 pC1 qC1 rfl rfl rfl (by decide)
    (by decide) (by decide) (by decide)

/-! ## Claim C2: at most one Running process in every reachable state -/

/-- The effect of updateProcGo on the live (Some) processes: rewrite the
first one carrying the PID. -/
def updLive (f : Process → Process) (pid : Nat) : List Process → List Process
  | [] => []
  | p :: rest => if p.pid = pid then f p :: rest else p :: updLive f pid rest

theorem filterMap_updateProcGo (f : Process → Process) (pid : Nat) :
    ∀ l : List (Option Process),
      (updateProcGo f pid l).filterMap id = updLive f pid (l.filterMap id) := by
  intro l
  induction l with
  | nil => rfl
  | cons s rest ih =>
    cases s with
    | none =>
      simp only [updateProcGo, List.filterMap_cons, id]
      exact ih
    | some p =>
      by_cases hp : p.pid = pid
      · simp only [updateProcGo, if_pos hp, List.filterMap_cons, id, updLive]
      · simp only [updateProcGo, if_neg hp, List.filterMap_cons, id, updLive]
        rw [ih]

theorem updLive_map_pid (f : Process → Process) (pid : Nat)
    (hf : ∀ p, (f p).pid = p.pid) :
    ∀ l : List Process,
      (updLive f pid l).map (fun p => p.pid) = l.map (fun p => p.pid) := by
  intro l
  induction l with
  | nil => rfl
  | cons p rest ih =>
    by_cases hp : p.pid = pid
    · simp only [updLive, if_pos hp, List.map_cons, hf]
    · simp only [updLive, if_neg hp, List.map_cons, ih]

theorem mem_updLive (f : Process → Process) (pid : Nat) :
    ∀ (l : List Process) (q : Process), q ∈ updLive f pid l →
      q ∈ l ∨ ∃ p ∈ l, p.pid = pid ∧ q = f p := by
  intro l
  induction l with
  | nil =>
    intro q hq
    exact absurd hq (by simp [updLive])
  | cons p rest ih =>
    intro q hq
    by_cases hp : p.pid = pid
    · simp only [updLive, if_pos hp] at hq
      rcases List.mem_cons.mp hq with h | h
      · exact Or.inr ⟨p, List.mem_cons_self p rest, hp, h⟩
      · exact Or.inl (List.mem_cons_of_mem p h)
    · simp only [updLive, if_neg hp] at hq
      rcases List.mem_cons.mp hq with h | h
      · exact Or.inl (h ▸ List.mem_cons_self p rest)
      · rcases ih q h with h2 | ⟨p2, hp2, hpe, hqe⟩
        · exact Or.inl (List.mem_cons_of_mem p h2)
        · exact Or.inr ⟨p2, List.mem_cons_of_mem p hp2, hpe, hqe⟩

theorem filterMap_set_some (q : Process) :
    ∀ (l : List (Option Process)) (slot : Nat), slot < l.length →
      l.getD slot none = none →
      ∃ l1 l2, l.filterMap id = l1 ++ l2 ∧
        (l.set slot (some q)).filterMap id = l1 ++ q :: l2 := by
  intro l
  induction l with
  | nil =>
    intro slot h
    exact absurd h (by simp)
  | cons s rest ih =>
    intro slot hlt hget
    cases slot with
    | zero =>
      rw [List.getD_cons_zero] at hget
      subst hget
      exact ⟨[], rest.filterMap id, by simp, by simp⟩
    | succ n =>
      rw [List.getD_cons_succ] at hget
      obtain ⟨l1, l2, h1, h2⟩ := ih n (by simp only [List.length_cons] at hlt; omega) hget
      cases s with
      | none =>
        exact ⟨l1, l2, by simp [List.filterMap_cons, h1],
          by simp [List.filterMap_cons, h2]⟩
      | some p =>
        exact ⟨p :: l1, l2, by simp [List.filterMap_cons, h1],
          by simp [List.filterMap_cons, h2]⟩

theorem filterMap_set_blank :
    ∀ (l : List (Option Process)) (slot : Nat) (child : Process),
      slot < l.length → l.getD slot none = some child →
      ∃ l1 l2, l.filterMap id = l1 ++ child :: l2 ∧
        (l.set slot none).filterMap id = l1 ++ l2 := by
  intro l
  induction l with
  | nil =>
    intro slot child h
    exact absurd h (by simp)
  | cons s rest ih =>
    intro slot child hlt hget
    cases slot with
    | zero =>
      rw [List.getD_cons_zero] at hget
      subst hget
      exact ⟨[], rest.filterMap id, by simp, by simp⟩
    | succ n =>
      rw [List.getD_cons_succ] at hget
      obtain ⟨l1, l2, h1, h2⟩ :=
        ih n child (by simp only [List.length_cons] at hlt; omega) hget
      cases s with
      | none =>
        exact ⟨l1, l2, by simp [List.filterMap_cons, h1],
          by simp [List.filterMap_cons, h2]⟩
      | some p =>
        exact ⟨p :: l1, l2, by simp [List.filterMap_cons, h1],
          by simp [List.filterMap_cons, h2]⟩

theorem find?_pid_eq_of_mem (x : Nat) :
    ∀ l : List Process, ((l.map (fun p => p.pid)).Nodup) →
      ∀ p ∈ l, p.pid = x → l.find? (fun q => q.pid = x) = some p := by
  intro l
  induction l with
  | nil =>
    intro _ p hp
    exact absurd hp (List.not_mem_nil p)
  | cons a rest ih =>
    intro hnd p hp hpx
    rw [List.map_cons, List.nodup_cons] at hnd
    rcases List.mem_cons.mp hp with h | h
    · subst h
      rw [List.find?_cons_of_pos _ (by simp [hpx])]
    · by_cases ha : a.pid = x
      · exact absurd (by rw [ha, ← hpx]; exact List.mem_map_of_mem _ h) hnd.1
      · rw [List.find?_cons_of_neg _ (by simp [ha])]
        exact ih hnd.2 p h hpx

theorem noRunning_updLive_down (cur : Nat) :
    ∀ l : List Process,
      (∀ p ∈ l, p.state = ProcessState.Running → p.pid = cur) →
      ((l.map (fun p => p.pid)).Nodup) →
      ∀ q ∈ updLive (fun p => if p.state = ProcessState.Running
          then { p with state := ProcessState.Ready } else p) cur l,
        q.state ≠ ProcessState.Running := by
  intro l
  induction l with
  | nil =>
    intro _ _ q hq
    exact absurd hq (by simp [updLive])
  | cons p rest ih =>
    intro h1 hnd q hq
    rw [List.map_cons, List.nodup_cons] at hnd
    by_cases hp : p.pid = cur
    · simp only [updLive, if_pos hp] at hq
      rcases List.mem_cons.mp hq with h | h
      · subst h
        by_cases hr : p.state = ProcessState.Running
        · simp only [if_pos hr]
          intro hx
          exact absurd hx (by simp)
        · simp only [if_neg hr]
          exact hr
      · intro hqr
        have hqc := h1 q (List.mem_cons_of_mem p h) hqr
        exact hnd.1 (by rw [hp, ← hqc]; exact List.mem_map_of_mem _ h)
    · simp only [updLive, if_neg hp] at hq
      rcases List.mem_cons.mp hq with h | h
      · subst h
        intro hr
        exact hp (h1 q (List.mem_cons_self q rest) hr)
      · exact ih (fun p2 hp2 => h1 p2 (List.mem_cons_of_mem p hp2)) hnd.2 q h

/-- No live process is Running. -/
def NoRun (t : ProcessTable) : Prop :=
  ∀ p ∈ t.processes.filterMap id, p.state ≠ ProcessState.Running

/-- The process-table invariant: every Running process is the current
one, live PIDs are pairwise distinct, and all live PIDs are below the
allocator's next_pid. -/
def Inv (t : ProcessTable) : Prop :=
  (∀ p ∈ t.processes.filterMap id, p.state = ProcessState.Running →
    t.current_pid = some p.pid) ∧
  ((t.processes.filterMap id).map (fun p => p.pid)).Nodup ∧
  (∀ p ∈ t.processes.filterMap id, p.pid < t.next_pid)

/-- One kernel operation on the process table, as listed in the claim. -/
inductive PStep : ProcessTable → ProcessTable → Prop where
  | spawn (t : ProcessTable) (entry stack_top : Nat) (path args : List String)
      (fdt : FdTable) (mem : List Nat) (argc argv_ptr : Nat) :
      PStep t (t.spawn entry stack_top path args fdt mem argc argv_ptr).2
  | exit (t : ProcessTable) (pt : PipeTable) (pid : Nat) (code : Int) :
      PStep t (t.exit_process pt pid code).1
  | wait_op (t : ProcessTable) (parent : Nat) :
      PStep t (t.wait parent).2
  | block (t : ProcessTable) : PStep t (Scheduler.block_current t)
  | unblock (t : ProcessTable) (pid : Nat) : PStep t (Scheduler.unblock t pid)
  | yield (t : ProcessTable) : PStep t (Scheduler.yield_cpu t)
  | mswitch (t : ProcessTable) (m : Machine) (tf : TrapFrame) :
      PStep t (Scheduler.maybe_switch t m tf).1

/-- A table reachable from the initial empty table by kernel
operations. -/
def Reachable (t : ProcessTable) : Prop :=
  Relation.ReflTransGen PStep ProcessTable.new t

theorem modify_live (t : ProcessTable) (pid : Nat) (f : Process → Process) :
    (t.modify pid f).processes.filterMap id =
      updLive f pid (t.processes.filterMap id) := by
  unfold ProcessTable.modify
  exact filterMap_updateProcGo f pid t.processes

theorem inv_modify_generic (t : ProcessTable) (pid : Nat) (f : Process → Process)
    (hfp : ∀ p, (f p).pid = p.pid)
    (hfs : ∀ p, (f p).state = ProcessState.Running →
      p.state = ProcessState.Running)
    (hinv : Inv t) : Inv (t.modify pid f) := by
  obtain ⟨h1, h2, h3⟩ := hinv
  refine ⟨?_, ?_, ?_⟩
  · intro q hq hr
    rw [modify_live] at hq
    rcases mem_updLive f pid _ q hq with h | ⟨p, hp, -, hqe⟩
    · exact h1 q h hr
    · subst hqe
      have hc := h1 p hp (hfs p hr)
      rw [hfp p]
      exact hc
  · rw [modify_live, updLive_map_pid f pid hfp]
    exact h2
  · intro q hq
    rw [modify_live] at hq
    rcases mem_updLive f pid _ q hq with h | ⟨p, hp, -, hqe⟩
    · exact h3 q h
    · subst hqe
      rw [hfp p]
      exact h3 p hp

theorem noRun_modify (t : ProcessTable) (pid : Nat) (f : Process → Process)
    (hfs : ∀ p, (f p).state = ProcessState.Running →
      p.state = ProcessState.Running)
    (hnr : NoRun t) : NoRun (t.modify pid f) := by
  intro q hq hr
  rw [modify_live] at hq
  rcases mem_updLive f pid _ q hq with h | ⟨p, hp, -, hqe⟩
  · exact hnr q h hr
  · subst hqe
    exact hnr p hp (hfs p hr)

theorem inv_mark_running (t : ProcessTable) (next : Nat)
    (hcur : t.current_pid = some next) (hnr : NoRun t)
    (h2 : ((t.processes.filterMap id).map (fun p => p.pid)).Nodup)
    (h3 : ∀ p ∈ t.processes.filterMap id, p.pid < t.next_pid) :
    Inv (t.modify next (fun p => { p with state := ProcessState.Running })) := by
  refine ⟨?_, ?_, ?_⟩
  · intro q hq hr
    rw [modify_live] at hq
    rcases mem_updLive _ _ _ q hq with h | ⟨p, hp, hpid, hqe⟩
    · exact absurd hr (hnr q h)
    · subst hqe
      show t.current_pid = some p.pid
      rw [hpid]
      exact hcur
  · rw [modify_live, updLive_map_pid
      (fun p => { p with state := ProcessState.Running }) next (fun p => rfl)]
    exact h2
  · intro q hq
    rw [modify_live] at hq
    rcases mem_updLive _ _ _ q hq with h | ⟨p, hp, -, hqe⟩
    · exact h3 q h
    · subst hqe
      show p.pid < t.next_pid
      exact h3 p hp

theorem inv_pick (t1 : ProcessTable) (next : Nat) (m2 : Machine)
    (tf : TrapFrame) (hnr : NoRun t1) (hinv : Inv t1) :
    Inv (((t1.set_current next).restore_process_registers next m2 tf).1.modify
      next (fun p => { p with state := ProcessState.Running })) := by
  obtain ⟨h1, h2, h3⟩ := hinv
  have hnr2 : NoRun (t1.set_current next) := hnr
  cases hg : (t1.set_current next).get next with
  | none =>
    have hr1 : ((t1.set_current next).restore_process_registers next m2 tf).1 =
        t1.set_current next := by
      unfold ProcessTable.restore_process_registers
      rw [hg]
    rw [hr1]
    exact inv_mark_running _ next rfl hnr2 h2 h3
  | some pg =>
    by_cases hst : pg.started = true
    · have hr1 : ((t1.set_current next).restore_process_registers next m2 tf).1 =
          t1.set_current next := by
        unfold ProcessTable.restore_process_registers
        rw [hg]
        dsimp only
        rw [if_pos hst]
      rw [hr1]
      exact inv_mark_running _ next rfl hnr2 h2 h3
    · have hr1 : ((t1.set_current next).restore_process_registers next m2 tf).1 =
          (t1.set_current next).modify next
            (fun q => { q with started := true }) := by
        unfold ProcessTable.restore_process_registers
        rw [hg]
        dsimp only
        rw [if_neg hst]
      rw [hr1]
      refine inv_mark_running _ next rfl ?_ ?_ ?_
      · exact noRun_modify _ _ (fun q => { q with started := true })
          (fun p h => h) hnr2
      · rw [modify_live, updLive_map_pid
          (fun q => { q with started := true }) next (fun p => rfl)]
        exact h2
      · intro q hq
        rw [modify_live] at hq
        rcases mem_updLive _ _ _ q hq with h | ⟨p, hp, -, hqe⟩
        · exact h3 q h
        · subst hqe
          show p.pid < t1.next_pid
          exact h3 p hp

theorem inv_mswitch_go (t1 : ProcessTable) (m : Machine) (tf : TrapFrame)
    (hnr : NoRun t1) (hinv : Inv t1) :
    Inv ((match Scheduler.schedule t1 with
      | some next_pid =>
        (((t1.set_current next_pid).restore_process_registers next_pid
            ((t1.set_current next_pid).restore_process_memory next_pid m)
            tf).1.modify next_pid
          (fun p => { p with state := ProcessState.Running }),
         ((t1.set_current next_pid).restore_process_registers next_pid
            ((t1.set_current next_pid).restore_process_memory next_pid m)
            tf).2.1,
         ((t1.set_current next_pid).restore_process_registers next_pid
            ((t1.set_current next_pid).restore_process_memory next_pid m)
            tf).2.2,
         true)
      | none => (t1, m, tf, false)).1) := by
  cases hs : Scheduler.schedule t1 with
  | none =>
    dsimp only
    exact hinv
  | some next =>
    dsimp only
    exact inv_pick t1 next _ tf hnr hinv

theorem inv_new : Inv ProcessTable.new := by
  have hempty : ProcessTable.new.processes.filterMap id = [] := rfl
  refine ⟨?_, ?_, ?_⟩
  · intro p hp
    rw [hempty] at hp
    exact absurd hp (List.not_mem_nil p)
  · rw [hempty]
    exact List.nodup_nil
  · intro p hp
    rw [hempty] at hp
    exact absurd hp (List.not_mem_nil p)

theorem inv_spawn (t : ProcessTable) (entry stack_top : Nat)
    (path args : List String) (fdt : FdTable) (mem : List Nat)
    (argc argv_ptr : Nat) (hinv : Inv t) :
    Inv (t.spawn entry stack_top path args fdt mem argc argv_ptr).2 := by
  obtain ⟨h1, h2, h3⟩ := hinv
  unfold ProcessTable.spawn
  cases hfi : t.processes.findIdx? (fun s => s.isNone) with
  | none =>
    dsimp only
    exact ⟨h1, h2, h3⟩
  | some slot =>
    dsimp only
    obtain ⟨-, hlt, hpred⟩ := findIdx?_some_getD _ none t.processes 0 slot hfi
    rw [Nat.sub_zero] at hlt hpred
    have hnone : t.processes.getD slot none = none :=
      Option.isNone_iff_eq_none.mp hpred
    obtain ⟨l1, l2, hold, hnew⟩ := filterMap_set_some
      (Process.new t.next_pid t.current_pid entry stack_top path args fdt mem
        argc argv_ptr) t.processes slot hlt hnone
    have hsub : ∀ q, q ∈ l1 ++ l2 → q ∈ t.processes.filterMap id := by
      intro q hq
      rw [hold]
      exact hq
    refine ⟨?_, ?_, ?_⟩
    · intro q hq hr
      dsimp only at hq
      rw [hnew] at hq
      rcases List.mem_append.mp hq with h | h
      · exact h1 q (hsub q (List.mem_append.mpr (Or.inl h))) hr
      · rcases List.mem_cons.mp h with h | h
        · subst h
          exact absurd hr (by simp [Process.new])
        · exact h1 q (hsub q (List.mem_append.mpr (Or.inr h))) hr
    · dsimp only
      rw [hnew, List.map_append, List.map_cons, List.nodup_middle,
        List.nodup_cons]
      constructor
      · rw [← List.map_append]
        intro hmem
        obtain ⟨q, hq, hqe⟩ := List.mem_map.mp hmem
        have hlt2 := h3 q (hsub q hq)
        have hq2 : q.pid = t.next_pid := hqe
        omega
      · have h2b := h2
        rw [hold, List.map_append] at h2b
        rw [← List.map_append]
        rw [List.map_append]
        exact h2b
    · intro q hq
      dsimp only at hq
      rw [hnew] at hq
      show q.pid < t.next_pid + 1
      rcases List.mem_append.mp hq with h | h
      · have := h3 q (hsub q (List.mem_append.mpr (Or.inl h)))
        omega
      · rcases List.mem_cons.mp h with h | h
        · subst h
          show t.next_pid < t.next_pid + 1
          omega
        · have := h3 q (hsub q (List.mem_append.mpr (Or.inr h)))
          omega

theorem inv_wait (t : ProcessTable) (parent : Nat) (hinv : Inv t) :
    Inv (t.wait parent).2 := by
  obtain ⟨h1, h2, h3⟩ := hinv
  unfold ProcessTable.wait
  cases hfi : t.processes.findIdx? (fun s =>
      match s with
      | some p => decide (p.parent_pid = some parent ∧ p.has_exited)
      | none => false) with
  | none =>
    dsimp only
    exact ⟨h1, h2, h3⟩
  | some i =>
    dsimp only
    cases hslot : t.processes.getD i none with
    | none =>
      dsimp only
      exact ⟨h1, h2, h3⟩
    | some child =>
      dsimp only
      cases hfi2 : t.processes.findIdx? (fun s =>
          (s.map (fun pr => pr.pid)) == some child.pid) with
      | none =>
        dsimp only
        exact ⟨h1, h2, h3⟩
      | some slot =>
        dsimp only
        obtain ⟨-, hlt2, hpred2⟩ :=
          findIdx?_some_getD _ none t.processes 0 slot hfi2
        rw [Nat.sub_zero] at hlt2 hpred2
        cases hslot2 : t.processes.getD slot none with
        | none =>
          rw [hslot2] at hpred2
          exact absurd hpred2 (by simp)
        | some child2 =>
          obtain ⟨l1, l2, hold, hnew⟩ :=
            filterMap_set_blank t.processes slot child2 hlt2 hslot2
          have hsub : ∀ q, q ∈ l1 ++ l2 → q ∈ t.processes.filterMap id := by
            intro q hq
            rw [hold]
            rcases List.mem_append.mp hq with h | h
            · exact List.mem_append.mpr (Or.inl h)
            · exact List.mem_append.mpr (Or.inr (List.mem_cons_of_mem _ h))
          refine ⟨?_, ?_, ?_⟩
          · intro q hq hr
            dsimp only at hq
            rw [hnew] at hq
            exact h1 q (hsub q hq) hr
          · dsimp only
            rw [hnew, List.map_append]
            have h2b := h2
            rw [hold, List.map_append, List.map_cons] at h2b
            have := List.nodup_middle.mp h2b
            exact (List.nodup_cons.mp this).2
          · intro q hq
            dsimp only at hq
            rw [hnew] at hq
            exact h3 q (hsub q hq)

theorem inv_block (t : ProcessTable) (hinv : Inv t) :
    Inv (Scheduler.block_current t) := by
  unfold Scheduler.block_current
  cases hc : t.current_pid with
  | none => exact hinv
  | some cp =>
    dsimp only
    exact inv_modify_generic t cp
      (fun p => { p with state := ProcessState.Blocked })
      (fun p => rfl) (fun p h => absurd h (by simp)) hinv

theorem inv_unblock (t : ProcessTable) (pid : Nat) (hinv : Inv t) :
    Inv (Scheduler.unblock t pid) := by
  unfold Scheduler.unblock
  refine inv_modify_generic t pid
    (fun p => if p.state = ProcessState.Blocked
      then { p with state := ProcessState.Ready } else p) ?_ ?_ hinv
  · intro p
    by_cases h : p.state = ProcessState.Blocked <;> simp [h]
  · intro p h
    try dsimp only at h
    by_cases hb : p.state = ProcessState.Blocked
    · rw [if_pos hb] at h
      exact absurd h (by simp)
    · rwa [if_neg hb] at h

theorem inv_unblockMany (pids : List Nat) :
    ∀ t : ProcessTable, Inv t → Inv (Scheduler.unblockMany t pids) := by
  induction pids with
  | nil =>
    intro t h
    exact h
  | cons x rest ih =>
    intro t h
    exact ih (Scheduler.unblock t x) (inv_unblock t x h)

theorem inv_exit (t : ProcessTable) (pt : PipeTable) (pid : Nat) (code : Int)
    (hinv : Inv t) : Inv (t.exit_process pt pid code).1 := by
  unfold ProcessTable.exit_process
  cases hg : t.get pid with
  | none =>
    dsimp only
    exact hinv
  | some p =>
    dsimp only
    exact inv_unblockMany _ _ (inv_modify_generic t pid
      (fun q => Process.exit { q with fd_table :=
        (FdTable.close_all p.fd_table pt).1 } code)
      (fun q => rfl) (fun q h => absurd h (by simp [Process.exit])) hinv)

theorem inv_yield (t : ProcessTable) (hinv : Inv t) :
    Inv (Scheduler.yield_cpu t) := by
  obtain ⟨h1, h2, h3⟩ := hinv
  unfold Scheduler.yield_cpu
  dsimp only
  cases hc : t.current_pid with
  | none =>
    dsimp only
    have hnr : NoRun t := by
      intro p hp hr
      have hx := h1 p hp hr
      rw [hc] at hx
      exact Option.noConfusion hx
    cases hs : Scheduler.schedule t with
    | none =>
      dsimp only
      exact ⟨h1, h2, h3⟩
    | some next =>
      dsimp only
      exact inv_mark_running _ next rfl hnr h2 h3
  | some cp =>
    dsimp only
    have hlist1 : ∀ p ∈ t.processes.filterMap id,
        p.state = ProcessState.Running → p.pid = cp := by
      intro p hp hpr
      have hx := h1 p hp hpr
      rw [hc] at hx
      exact (Option.some.inj hx).symm
    have hinv1 : Inv (t.modify cp (fun p =>
        if p.state = ProcessState.Running
        then { p with state := ProcessState.Ready } else p)) := by
      refine inv_modify_generic t cp _ ?_ ?_ ⟨h1, h2, h3⟩
      · intro p
        by_cases h : p.state = ProcessState.Running <;> simp [h]
      · intro p h
        try dsimp only at h
        by_cases hr : p.state = ProcessState.Running
        · exact hr
        · rwa [if_neg hr] at h
    have hnr1 : NoRun (t.modify cp (fun p =>
        if p.state = ProcessState.Running
        then { p with state := ProcessState.Ready } else p)) := by
      intro q hq hr
      rw [modify_live] at hq
      exact noRunning_updLive_down cp _ hlist1 h2 q hq hr
    cases hs : Scheduler.schedule (t.modify cp (fun p =>
        if p.state = ProcessState.Running
        then { p with state := ProcessState.Ready } else p)) with
    | none =>
      dsimp only
      exact hinv1
    | some next =>
      dsimp only
      obtain ⟨g1, g2, g3⟩ := hinv1
      exact inv_mark_running _ next rfl hnr1 g2 g3

theorem msave_eq_false (t : ProcessTable) (m : Machine) (tf : TrapFrame)
    (cp : Nat) (hc : t.current_pid = some cp) :
    Scheduler.maybe_switch_save t m tf false =
      (t.modify cp (fun q => { q with pc := m.sepc, sp := m.sscratch })).modify
        cp (fun q => { q with memory := m.window }) := by
  unfold Scheduler.maybe_switch_save
  rw [hc]
  dsimp only
  have hsr : t.save_current_registers m tf =
      t.modify cp (fun q => { q with pc := m.sepc, sp := m.sscratch }) := by
    unfold ProcessTable.save_current_registers
    rw [hc]
  have hsm : (t.modify cp (fun q =>
        { q with pc := m.sepc, sp := m.sscratch })).save_current_memory m =
      (t.modify cp (fun q => { q with pc := m.sepc, sp := m.sscratch })).modify
        cp (fun q => { q with memory := m.window }) := by
    unfold ProcessTable.save_current_memory
    rw [show (t.modify cp (fun q =>
      { q with pc := m.sepc, sp := m.sscratch })).current_pid = some cp from hc]
  rw [hsr, hsm, if_neg (by simp)]

theorem msave_eq_true (t : ProcessTable) (m : Machine) (tf : TrapFrame)
    (cp : Nat) (hc : t.current_pid = some cp) :
    Scheduler.maybe_switch_save t m tf true =
      ((t.modify cp (fun q => { q with pc := m.sepc, sp := m.sscratch })).modify
        cp (fun q => { q with memory := m.window })).modify cp
        (fun q => if q.state = ProcessState.Running
          then { q with state := ProcessState.Ready } else q) := by
  unfold Scheduler.maybe_switch_save
  rw [hc]
  dsimp only
  have hsr : t.save_current_registers m tf =
      t.modify cp (fun q => { q with pc := m.sepc, sp := m.sscratch }) := by
    unfold ProcessTable.save_current_registers
    rw [hc]
  have hsm : (t.modify cp (fun q =>
        { q with pc := m.sepc, sp := m.sscratch })).save_current_memory m =
      (t.modify cp (fun q => { q with pc := m.sepc, sp := m.sscratch })).modify
        cp (fun q => { q with memory := m.window }) := by
    unfold ProcessTable.save_current_memory
    rw [show (t.modify cp (fun q =>
      { q with pc := m.sepc, sp := m.sscratch })).current_pid = some cp from hc]
  rw [hsr, hsm, if_pos rfl]

theorem inv_save_pair (t : ProcessTable) (cp : Nat) (m : Machine)
    (hinv : Inv t) :
    Inv ((t.modify cp (fun q =>
        { q with pc := m.sepc, sp := m.sscratch })).modify cp
      (fun q => { q with memory := m.window })) :=
  inv_modify_generic _ cp (fun q => { q with memory := m.window })
    (fun q => rfl) (fun q h => h)
    (inv_modify_generic t cp
      (fun q => { q with pc := m.sepc, sp := m.sscratch })
      (fun q => rfl) (fun q h => h) hinv)

theorem noRun_save_pair (t : ProcessTable) (cp : Nat) (m : Machine)
    (hnr : NoRun t) :
    NoRun ((t.modify cp (fun q =>
        { q with pc := m.sepc, sp := m.sscratch })).modify cp
      (fun q => { q with memory := m.window })) :=
  noRun_modify _ cp (fun q => { q with memory := m.window }) (fun q h => h)
    (noRun_modify t cp (fun q => { q with pc := m.sepc, sp := m.sscratch })
      (fun q h => h) hnr)

theorem inv_mswitch (t : ProcessTable) (m : Machine) (tf : TrapFrame)
    (hinv : Inv t) : Inv (Scheduler.maybe_switch t m tf).1 := by
  obtain ⟨h1, h2, h3⟩ := hinv
  unfold Scheduler.maybe_switch
  dsimp only
  cases hc : t.current_pid with
  | none =>
    dsimp only
    rw [if_neg (by simp)]
    have hnr : NoRun t := by
      intro p hp hr
      have hx := h1 p hp hr
      rw [hc] at hx
      exact Option.noConfusion hx
    have hsv : Scheduler.maybe_switch_save t m tf false = t := by
      unfold Scheduler.maybe_switch_save
      rw [hc]
    rw [hsv]
    exact inv_mswitch_go t m tf hnr ⟨h1, h2, h3⟩
  | some cp =>
    dsimp only
    have hlist1 : ∀ p ∈ t.processes.filterMap id,
        p.state = ProcessState.Running → p.pid = cp := by
      intro p hp hpr
      have hx := h1 p hp hpr
      rw [hc] at hx
      exact (Option.some.inj hx).symm
    cases hg : t.get cp with
    | none =>
      dsimp only [Option.map]
      rw [if_neg (by simp)]
      have hnr : NoRun t := by
        intro p hp hr
        have hpid := hlist1 p hp hr
        have hfind := find?_pid_eq_of_mem cp (t.processes.filterMap id) h2
          p hp hpid
        rw [show t.get cp = (t.processes.filterMap id).find?
          (fun q => q.pid = cp) from rfl, hfind] at hg
        exact Option.noConfusion hg
      rw [msave_eq_false t m tf cp hc]
      exact inv_mswitch_go _ m tf (noRun_save_pair t cp m hnr)
        (inv_save_pair t cp m ⟨h1, h2, h3⟩)
    | some pg =>
      dsimp only [Option.map]
      cases hpgs : pg.state with
      | Blocked =>
        dsimp only
        rw [if_neg (by simp)]
        have hnr : NoRun t := by
          intro p hp hr
          have hpid := hlist1 p hp hr
          have hfind := find?_pid_eq_of_mem cp (t.processes.filterMap id) h2
            p hp hpid
          rw [show t.get cp = (t.processes.filterMap id).find?
            (fun q => q.pid = cp) from rfl, hfind] at hg
          have hpq := Option.some.inj hg
          rw [← hpq] at hpgs
          rw [hr] at hpgs
          exact ProcessState.noConfusion hpgs
        rw [msave_eq_false t m tf cp hc]
        exact inv_mswitch_go _ m tf (noRun_save_pair t cp m hnr)
          (inv_save_pair t cp m ⟨h1, h2, h3⟩)
      | Exited =>
        dsimp only
        rw [if_neg (by simp)]
        have hnr : NoRun t := by
          intro p hp hr
          have hpid := hlist1 p hp hr
          have hfind := find?_pid_eq_of_mem cp (t.processes.filterMap id) h2
            p hp hpid
          rw [show t.get cp = (t.processes.filterMap id).find?
            (fun q => q.pid = cp) from rfl, hfind] at hg
          have hpq := Option.some.inj hg
          rw [← hpq] at hpgs
          rw [hr] at hpgs
          exact ProcessState.noConfusion hpgs
        rw [msave_eq_false t m tf cp hc]
        exact inv_mswitch_go _ m tf (noRun_save_pair t cp m hnr)
          (inv_save_pair t cp m ⟨h1, h2, h3⟩)
      | Running =>
        dsimp only
        by_cases hho : ((t.processes.filterMap id).any (fun q =>
            decide (q.pid ≠ cp ∧ (q.state = ProcessState.Ready ∨
              q.state = ProcessState.Running)))) = true
        case neg =>
          rw [if_neg hho]
          dsimp only
          rw [if_pos rfl]
          exact ⟨h1, h2, h3⟩
        case pos =>
          rw [if_pos hho]
          dsimp only
          rw [if_neg (by simp)]
          rw [msave_eq_true t m tf cp hc]
          refine inv_mswitch_go _ m tf ?_ ?_
          · intro q hq hr
            rw [modify_live] at hq
            have hb := inv_save_pair t cp m ⟨h1, h2, h3⟩
            refine noRunning_updLive_down cp _ ?_ hb.2.1 q hq hr
            intro p hp hpr
            have hx := hb.1 p hp hpr
            have hx2 : (some cp : Option Nat) = some p.pid := by
              rw [← hc]
              exact hx
            exact (Option.some.inj hx2).symm
          · refine inv_modify_generic _ cp _ ?_ ?_
              (inv_save_pair t cp m ⟨h1, h2, h3⟩)
            · intro p
              by_cases h : p.state = ProcessState.Running <;> simp [h]
            · intro p h
              try dsimp only at h
              by_cases hr2 : p.state = ProcessState.Running
              · exact hr2
              · rwa [if_neg hr2] at h
      | Ready =>
        dsimp only
        by_cases hho : ((t.processes.filterMap id).any (fun q =>
            decide (q.pid ≠ cp ∧ (q.state = ProcessState.Ready ∨
              q.state = ProcessState.Running)))) = true
        case neg =>
          rw [if_neg hho]
          dsimp only
          rw [if_pos rfl]
          exact ⟨h1, h2, h3⟩
        case pos =>
          rw [if_pos hho]
          dsimp only
          rw [if_neg (by simp)]
          rw [msave_eq_true t m tf cp hc]
          refine inv_mswitch_go _ m tf ?_ ?_
          · intro q hq hr
            rw [modify_live] at hq
            have hb := inv_save_pair t cp m ⟨h1, h2, h3⟩
            refine noRunning_updLive_down cp _ ?_ hb.2.1 q hq hr
            intro p hp hpr
            have hx := hb.1 p hp hpr
            have hx2 : (some cp : Option Nat) = some p.pid := by
              rw [← hc]
              exact hx
            exact (Option.some.inj hx2).symm
          · refine inv_modify_generic _ cp _ ?_ ?_
              (inv_save_pair t cp m ⟨h1, h2, h3⟩)
            · intro p
              by_cases h : p.state = ProcessState.Running <;> simp [h]
            · intro p h
              try dsimp only at h
              by_cases hr2 : p.state = ProcessState.Running
              · exact hr2
              · rwa [if_neg hr2] at h

theorem running_count_le_one (t : ProcessTable)
    (h1 : ∀ p ∈ t.processes.filterMap id, p.state = ProcessState.Running →
      t.current_pid = some p.pid)
    (h2 : ((t.processes.filterMap id).map (fun p => p.pid)).Nodup) :
    ((t.processes.filterMap id).filter
      (fun p => p.state = ProcessState.Running)).length ≤ 1 := by
  cases hfl : (t.processes.filterMap id).filter
      (fun p => p.state = ProcessState.Running) with
  | nil => simp
  | cons a tl =>
    cases tl with
    | nil => simp
    | cons b tl2 =>
      exfalso
      have hsub : (a :: b :: tl2).Sublist (t.processes.filterMap id) := by
        rw [← hfl]
        exact List.filter_sublist _
      have hnd2 : ((a :: b :: tl2).map (fun p => p.pid)).Nodup :=
        List.Nodup.sublist (List.Sublist.map _ hsub) h2
      have hamem : a ∈ (t.processes.filterMap id).filter
          (fun p => p.state = ProcessState.Running) := by
        rw [hfl]
        exact List.mem_cons_self a (b :: tl2)
      have hbmem : b ∈ (t.processes.filterMap id).filter
          (fun p => p.state = ProcessState.Running) := by
        rw [hfl]
        exact List.mem_cons_of_mem a (List.mem_cons_self b tl2)
      have ha := List.mem_filter.mp hamem
      have hb := List.mem_filter.mp hbmem
      have hab : a.pid = b.pid := by
        have h1a := h1 a ha.1 (of_decide_eq_true ha.2)
        have h1b := h1 b hb.1 (of_decide_eq_true hb.2)
        exact Option.some.inj (h1a.symm.trans h1b)
      rw [List.map_cons, List.map_cons, List.nodup_cons] at hnd2
      exact hnd2.1 (by rw [hab]; exact List.mem_cons_self _ _)

/-- Claim C2: in every process-table state reachable from the initial
empty table through spawn, exit_process, wait, block, unblock,
yield_cpu and maybe_switch, at most one live process is Running.  The
proof maintains the stronger invariant that every Running process is
the current one and live PIDs are pairwise distinct. -/
theorem at_most_one_running (t : ProcessTable) (h : Reachable t) :
    ((t.processes.filterMap id).filter
      (fun p => p.state = ProcessState.Running)).length ≤ 1 := by
  have hinv : Inv t := by
    unfold Reachable at h
    induction h with
    | refl => exact inv_new
    | tail hsteps hstep ih =>
      cases hstep with
      | spawn entry stack_top path args fdt mem argc argv_ptr =>
        exact inv_spawn _ entry stack_top path args fdt mem argc argv_ptr ih
      | exit pt pid code => exact inv_exit _ pt pid code ih
      | wait_op parent => exact inv_wait _ parent ih
      | block => exact inv_block _ ih
      | unblock pid => exact inv_unblock _ pid ih
      | yield => exact inv_yield _ ih
      | mswitch m tf => exact inv_mswitch _ m tf ih
  exact running_count_le_one t hinv.1 hinv.2.1

/-- Claim C2 witness: the bound instantiated after one spawn from the
empty table. -/
theorem at_most_one_running_witness :
    ((((ProcessTable.new.spawn 0 0 [] [] FdTable.new [] 0 0).2).processes.filterMap
      id).filter (fun p => p.state = ProcessState.Running)).length ≤ 1 :=
  at_most_one_running (ProcessTable.new.spawn 0 0 [] [] FdTable.new [] 0 0).2
    (Relation.ReflTransGen.single
      (PStep.spawn ProcessTable.new 0 0 [] [] FdTable.new [] 0 0))

end Crabv6
